import Mathlib

/-!
# Verification of the goanna scheduling-and-detection engine

Shallow embedding of the core of the `goanna` repository:

* the type-aware structural diff engine
  (`apps/api/internal/worker` — `buildSelectionDiff` and helpers),
* the selector evaluator (`apps/api/internal/selector` — `SelectJSON`),
* the check executor / retry controller / scheduler state machine
  (`apps/api/internal/worker/worker.go`).

Go `float64` values are modelled exactly: every finite IEEE-754 binary64
value is a dyadic rational, and `toF64` below rounds an arbitrary rational
to the nearest binary64 value (round to nearest, ties to even), which is
the semantics of Go's float arithmetic and of `strconv.ParseFloat` for the
magnitudes exercised here (normal range; the model does not implement
overflow to infinity or subnormal underflow, which the verified claims
never reach).  Rationals are represented by the executable fraction type
`Frac` (numerator / positive denominator, not necessarily reduced) so that
every computation reduces inside the kernel; `Frac.val` maps it to `ℚ`.
-/

namespace Goanna

/-- An executable rational number: `num / den` with `den` kept positive by
every constructor used in this development.  Fractions are not reduced;
value comparisons cross-multiply. -/
structure Frac where
  num : ℤ
  den : ℤ
  deriving DecidableEq, Repr

namespace Frac

/-- The rational value of a fraction. -/
def val (q : Frac) : ℚ := (q.num : ℚ) / (q.den : ℚ)

def ofInt (i : ℤ) : Frac := ⟨i, 1⟩

instance : OfNat Frac n := ⟨ofInt n⟩

def add (a b : Frac) : Frac := ⟨a.num * b.den + b.num * a.den, a.den * b.den⟩

def sub (a b : Frac) : Frac := ⟨a.num * b.den - b.num * a.den, a.den * b.den⟩

def mul (a b : Frac) : Frac := ⟨a.num * b.num, a.den * b.den⟩

/-- Division, keeping the denominator positive.  Division by a zero value
yields `0`; no modelled code path divides by zero. -/
def div (a b : Frac) : Frac :=
  if b.num = 0 then ⟨0, 1⟩
  else if 0 < b.num then ⟨a.num * b.den, a.den * b.num⟩
  else ⟨-(a.num * b.den), a.den * -b.num⟩

def neg (a : Frac) : Frac := ⟨-a.num, a.den⟩

def abs (a : Frac) : Frac := ⟨|a.num|, a.den⟩

/-- Value equality (cross multiplication). -/
def beqv (a b : Frac) : Bool := a.num * b.den == b.num * a.den

/-- Value strict order (denominators are positive). -/
def bltv (a b : Frac) : Bool := a.num * b.den < b.num * a.den

/-- Value non-strict order (denominators are positive). -/
def blev (a b : Frac) : Bool := a.num * b.den ≤ b.num * a.den

/-- Floor of the value (denominators are positive, so `Int.fdiv` is exact). -/
def floor (a : Frac) : ℤ := Int.fdiv a.num a.den

end Frac

/-- Round a fraction to the nearest integer, ties to even
(the IEEE-754 default rounding used by Go float arithmetic). -/
def rne (q : Frac) : ℤ :=
  let f : ℤ := q.floor
  let r : Frac := q.sub (.ofInt f)
  if r.bltv ⟨1, 2⟩ then f
  else if Frac.bltv ⟨1, 2⟩ r then f + 1
  else if f % 2 = 0 then f else f + 1

/-- Round a fraction to the nearest integer, ties away from zero
(the semantics of Go's `math.Round`). -/
def roundHalfAway (q : Frac) : ℤ :=
  if q.blev ⟨0, 1⟩ = false then (q.add ⟨1, 2⟩).floor
  else -((q.neg.add ⟨1, 2⟩).floor)

/-- Normalise a positive fraction into the binade `[1, 2)`, returning the
scaled mantissa and the binary exponent.  Fuel-bounded (structurally
total); 4200 steps cover the whole binary64 range. -/
def normExp : Nat → Frac → ℤ → Frac × ℤ
  | 0, a, e => (a, e)
  | fuel + 1, a, e =>
    if a.bltv ⟨1, 1⟩ then normExp fuel (a.mul ⟨2, 1⟩) (e - 1)
    else if Frac.blev ⟨2, 1⟩ a then normExp fuel (a.div ⟨2, 1⟩) (e + 1)
    else (a, e)

/-- Cancel common factors of two: divide `m` by `2` up to `k` times while it
stays even, returning the reduced mantissa and the remaining exponent. -/
def reduce2 : Nat → ℤ → Nat → ℤ × Nat
  | 0, m, k => (m, k)
  | _, m, 0 => (m, 0)
  | fuel + 1, m, k + 1 =>
    if m % 2 = 0 then reduce2 fuel (m / 2) k else (m, k + 1)

/-- Round a rational to the nearest IEEE-754 binary64 value, returned as
the exact fraction it denotes.  Round to nearest, ties to even, 53-bit
mantissa.  The output representation depends only on the input's value
(it is the reduced dyadic fraction), so binary64 values produced by
`toF64` compare correctly under structural equality. -/
def toF64 (q : Frac) : Frac :=
  if q.num = 0 then ⟨0, 1⟩
  else
    let me := normExp 4200 q.abs 0
    let mant : ℤ := rne (me.1.mul ⟨2 ^ 52, 1⟩)
    let sm : ℤ := if q.num < 0 then -mant else mant
    if 52 ≤ me.2 then ⟨sm * 2 ^ (me.2 - 52).toNat, 1⟩
    else
      let mk := reduce2 64 sm (52 - me.2).toNat
      ⟨mk.1, 2 ^ mk.2⟩

/-- Go float64 subtraction: exact difference rounded to binary64. -/
def fsub (a b : Frac) : Frac := toF64 (a.sub b)

/-- Go float64 multiplication: exact product rounded to binary64. -/
def fmul (a b : Frac) : Frac := toF64 (a.mul b)

/-- Go float64 division: exact quotient rounded to binary64. -/
def fdiv (a b : Frac) : Frac := toF64 (a.div b)

/-- Go's `math.Round` on a binary64 value: nearest integer, half away from
zero.  Rounding a binary64 to an integer this way always yields an exactly
representable value, so re-rounding through `toF64` matches the machine. -/
def mathRound (x : Frac) : Frac := toF64 (.ofInt (roundHalfAway x))

/-! ## Decimal formatting and parsing

Models of `strconv.FormatFloat(v, 'f', -1, 64)` (shortest decimal form
that round-trips to the same binary64 value) and `strconv.ParseFloat`,
plus the precision helpers of the diff engine
(`decimalPlacesFromNumericString`, `maxDecimalPlaces`,
`roundToDecimalPlaces` from `worker`). -/

/-- ASCII whitespace, the character class Go's `strings.TrimSpace` strips
on every input this development feeds it (Unicode spaces unmodelled). -/
def isSpaceGo (c : Char) : Bool :=
  c = ' ' ∨ c = '\t' ∨ c = '\n' ∨ c = '\r' ∨
    c = Char.ofNat 11 ∨ c = Char.ofNat 12

/-- Model of Go's `strings.TrimSpace`. -/
def trimGo (s : String) : String :=
  String.mk (((s.toList.dropWhile isSpaceGo).reverse.dropWhile isSpaceGo).reverse)

/-- The decimal number with `d` decimal places nearest to `q`. -/
def decRound (q : Frac) (d : Nat) : Frac :=
  ⟨roundHalfAway (q.mul ⟨10 ^ d, 1⟩), 10 ^ d⟩

/-- Search upward for the fewest decimal places that round-trip to the
binary64 value `q`; fuel-bounded (any binary64 round-trips well within
1200 decimal places). -/
def shortestDigitsAux (q : Frac) : Nat → Nat → Nat
  | 0, d => d
  | fuel + 1, d =>
    if (toF64 (decRound q d)).beqv q then d
    else shortestDigitsAux q fuel (d + 1)

/-- The number of decimal places in the shortest plain-decimal form of the
binary64 value `q` — `strconv.FormatFloat(q, 'f', -1, 64)` prints exactly
that many decimals. -/
def shortestDecimalDigits (q : Frac) : Nat := shortestDigitsAux q 1200 0

/-- Model of `strconv.FormatFloat(v, 'f', -1, 64)`: the shortest decimal
form (no exponent) whose value rounds back to the same binary64 value. -/
def formatShortest (q : Frac) : String :=
  let d := shortestDecimalDigits q
  let r : ℤ := roundHalfAway (q.mul ⟨10 ^ d, 1⟩)
  let sign := if r < 0 then "-" else ""
  let digits := (toString r.natAbs).toList
  if d = 0 then sign ++ String.mk digits
  else
    let padded :=
      if digits.length < d + 1 then List.replicate (d + 1 - digits.length) '0' ++ digits
      else digits
    sign ++ String.mk (padded.take (padded.length - d)) ++ "." ++
      String.mk (padded.drop (padded.length - d))

/-- `formatFloat` from `worker`: shortest form with an explicit `+` on
positive values. -/
def formatFloat (value : Frac) : String :=
  if Frac.bltv ⟨0, 1⟩ value then "+" ++ formatShortest value
  else formatShortest value

/-- Consume leading decimal digits. -/
def spanDigits : List Char → List Char × List Char
  | [] => ([], [])
  | c :: cs =>
    if c.isDigit then
      let r := spanDigits cs
      (c :: r.1, r.2)
    else ([], c :: cs)

/-- Numeric value of a digit list (most significant first). -/
def digitsToNat : List Char → Nat → Nat
  | [], acc => acc
  | c :: cs, acc => digitsToNat cs (acc * 10 + (c.toNat - 48))

/-- Model of `strconv.Atoi`: optional sign followed by one or more digits
(the modelled inputs never overflow a machine int). -/
def atoiQ (s : String) : Option ℤ :=
  let cs := s.toList
  let core : List Char → Option ℕ := fun l =>
    match l with
    | [] => none
    | _ =>
      let r := spanDigits l
      if r.2.isEmpty then some (digitsToNat r.1 0) else none
  match cs with
  | '-' :: rest => (core rest).map fun n => -(n : ℤ)
  | '+' :: rest => (core rest).map fun n => (n : ℤ)
  | _ => (core cs).map fun n => (n : ℤ)

/-- Model of `strconv.ParseFloat(s, 64)` on plain decimal forms: optional
sign, decimal mantissa (digits on at least one side of an optional point),
optional `e`/`E` exponent; the exact decimal value is rounded to the
nearest binary64.  (Hexadecimal floats, `inf`/`nan` spellings and digit
underscores, which no goanna code path feeds to it, are not modelled.) -/
def parseFloatQ (s : String) : Option Frac :=
  let cs := s.toList
  let signed : Bool × List Char :=
    match cs with
    | '-' :: rest => (true, rest)
    | '+' :: rest => (false, rest)
    | _ => (false, cs)
  let ip := spanDigits signed.2
  let fp : List Char × List Char :=
    match ip.2 with
    | '.' :: rest => spanDigits rest
    | _ => ([], ip.2)
  if ip.1.isEmpty ∧ fp.1.isEmpty then none
  else
    let mant : ℤ := (digitsToNat ip.1 0 * 10 ^ fp.1.length + digitsToNat fp.1 0 : ℕ)
    let mant : ℤ := if signed.1 then -mant else mant
    let scale : ℕ := fp.1.length
    let finish : ℤ → Option Frac := fun e =>
      let v : Frac :=
        if 0 ≤ e - scale then ⟨mant * 10 ^ (e - scale).toNat, 1⟩
        else ⟨mant, 10 ^ (scale - e).toNat⟩
      some (toF64 v)
    match fp.2 with
    | [] => finish 0
    | c :: rest =>
      if c = 'e' ∨ c = 'E' then
        let es : Bool × List Char :=
          match rest with
          | '-' :: r => (true, r)
          | '+' :: r => (false, r)
          | _ => (false, rest)
        let ed := spanDigits es.2
        if ed.1.isEmpty ∨ ¬ed.2.isEmpty then none
        else finish (if es.1 then -(digitsToNat ed.1 0 : ℤ) else (digitsToNat ed.1 0 : ℤ))
      else none

/-- Split at the first occurrence of `sep`, the two-way part of Go's
`strings.SplitN(s, sep, 2)`. -/
def splitAtFirst (sep : Char) : List Char → Option (List Char × List Char)
  | [] => none
  | c :: cs =>
    if c = sep then some ([], cs)
    else (splitAtFirst sep cs).map fun r => (c :: r.1, r.2)

/-- `decimalPlacesFromNumericString` from `worker`: the number of decimal
places a numeric string carries, taking a scientific-notation exponent
into account; `-1` when the string is not a number. -/
def decimalPlacesFromNumericString (raw : String) : ℤ :=
  let trimmed := trimGo raw
  if trimmed = "" then -1
  else if (parseFloatQ trimmed).isNone then -1
  else
    let cs := trimmed.toList
    let parts : List Char × Option (List Char) :=
      match splitAtFirst 'e' cs with
      | some r => (r.1, some r.2)
      | none =>
        match splitAtFirst 'E' cs with
        | some r => (r.1, some r.2)
        | none => (cs, none)
    let withExp : Option ℤ :=
      match parts.2 with
      | none => some 0
      | some expPart => atoiQ (String.mk expPart)
    match withExp with
    | none => -1
    | some exponent =>
      let mantissa := parts.1
      let decimalPlaces : ℤ :=
        match splitAtFirst '.' mantissa with
        | none => 0
        | some r => (r.2.length : ℤ)
      let decimalPlaces := decimalPlaces - exponent
      if decimalPlaces < 0 then 0 else decimalPlaces

/-- `maxDecimalPlaces` from `worker`. -/
def maxDecimalPlaces (left right : ℤ) : ℤ :=
  if left < 0 then right
  else if right < 0 then left
  else if right < left then left
  else right

/-- `roundToDecimalPlaces` from `worker`: round a float64 delta to a given
number of decimal places (`math.Round(value*factor) / factor`), passing
negative precision through unchanged and normalising `-0` to `0`.
`math.Pow10` is modelled as the binary64 nearest to the exact power. -/
def roundToDecimalPlaces (value : Frac) (decimalPlaces : ℤ) : Frac :=
  if decimalPlaces < 0 then value
  else
    let factor := toF64 ⟨10 ^ decimalPlaces.toNat, 1⟩
    let rounded := fdiv (mathRound (fmul value factor)) factor
    if rounded.beqv ⟨0, 1⟩ then ⟨0, 1⟩ else rounded

/-! ## JSON values

Tagged-union JSON value type, the shape `encoding/json.Unmarshal` decodes
into `any` in Go (`nil | bool | float64 | string | []any |
map[string]any`).  Object fields are kept sorted by key with duplicate
keys resolved later-wins, which is exactly the observable behaviour of a
Go `map[string]any` built by `Unmarshal` and serialised by `json.Marshal`
(whose map keys are sorted); with this canonical representation,
structural equality of `Json` values coincides with Go's
`reflect.DeepEqual` on the decoded values. -/

inductive Json where
  | null
  | bool (b : Bool)
  | num (q : Frac)
  | str (s : String)
  | arr (elems : List Json)
  | obj (fields : List (String × Json))
  deriving Inhabited

/-- The opening-brace character, `Char.ofNat 123`. -/
def lbrace : Char := Char.ofNat 123

/-- The closing-brace character, `Char.ofNat 125`. -/
def rbrace : Char := Char.ofNat 125

/-- Byte-wise lexicographic comparison of strings (Go's `<` on strings;
UTF-8 byte order and scalar-value order coincide). -/
def charListLt : List Char → List Char → Bool
  | [], [] => false
  | [], _ :: _ => true
  | _ :: _, [] => false
  | a :: as, b :: bs =>
    if a < b then true
    else if b < a then false
    else charListLt as bs

/-- `a < b` on strings, executably. -/
def strLtGo (a b : String) : Bool := charListLt a.toList b.toList

/-- `a ≤ b` on strings, executably. -/
def strLeGo (a b : String) : Bool := !strLtGo b a

/-- Insert a field into a key-sorted field list; an existing key is
overwritten (Go map assignment: the later duplicate key wins). -/
def insertField (k : String) (v : Json) : List (String × Json) → List (String × Json)
  | [] => [(k, v)]
  | (k', v') :: rest =>
    if k = k' then (k, v) :: rest
    else if strLtGo k k' then (k, v) :: (k', v') :: rest
    else (k', v') :: insertField k v rest

/-- Field lookup, Go's `item[key]` with its presence flag. -/
def lookupField (fields : List (String × Json)) (k : String) : Option Json :=
  match fields with
  | [] => none
  | (k', v) :: rest => if k' = k then some v else lookupField rest k

/-- Insertion step of `sortStrings`. -/
def insertSorted (s : String) : List String → List String
  | [] => [s]
  | t :: rest => if strLeGo s t then s :: t :: rest else t :: insertSorted s rest

/-- Model of Go's `sort.Strings` (byte-wise ascending). -/
def sortStrings (l : List String) : List String := l.foldr insertSorted []

/-- Lowercase hexadecimal digit. -/
def hexDigit (n : ℕ) : Char :=
  if n < 10 then Char.ofNat (48 + n) else Char.ofNat (87 + (n - 10))

/-- JSON string escaping as `encoding/json` performs it: quote, backslash,
`\n`/`\r`/`\t`, `\u00xx` for other control characters.  (The HTML-safe
escaping of `<`, `>`, `&` is not modelled; no claim exercises it.) -/
def escChar (c : Char) : List Char :=
  if c = '"' then ['\\', '"']
  else if c = '\\' then ['\\', '\\']
  else if c = '\n' then ['\\', 'n']
  else if c = '\r' then ['\\', 'r']
  else if c = '\t' then ['\\', 't']
  else if c.toNat < 32 then
    ['\\', 'u', '0', '0', hexDigit (c.toNat / 16), hexDigit (c.toNat % 16)]
  else [c]

/-- `json.Marshal` of a Go string. -/
def jsonQuote (s : String) : String :=
  "\"" ++ String.mk (s.toList.flatMap escChar) ++ "\""

/-- Nesting-depth fuel for the bounded recursions over `Json`: far
beyond Go's own decoder limit (`encoding/json` rejects documents nested
deeper than 10000), so no value the Go code can decode ever exhausts
it. -/
def jsonMaxDepth : Nat := 100000

/-- Fuel-bounded canonical encoder (see `stableJSON`). -/
def stableJSONF : Nat → Json → String
  | 0, _ => ""
  | fuel + 1, j =>
    match j with
    | .null => "null"
    | .bool true => "true"
    | .bool false => "false"
    | .num q => formatShortest q
    | .str s => jsonQuote s
    | .arr xs => "[" ++ String.intercalate "," (xs.map (stableJSONF fuel)) ++ "]"
    | .obj fs =>
      "\x7b" ++ String.intercalate ","
        (fs.map fun f => jsonQuote f.1 ++ ":" ++ stableJSONF fuel f.2) ++ "\x7d"

/-- `stableJSON` from `worker`: `json.Marshal` of a decoded value — the
canonical whitespace-free encoding with sorted object keys used as the
multiset/identity key throughout the diff engine.  On canonical values
within the decoder's depth limit the encoding is injective. -/
def stableJSON (j : Json) : String := stableJSONF jsonMaxDepth j

/-- Go's `reflect.DeepEqual` on decoded JSON values: on the canonical
representation (sorted, duplicate-free object fields, as both
`Unmarshal` into Go maps and this development's parser produce) two
decoded values are `DeepEqual` exactly when their canonical encodings
coincide. -/
def Json.beq (a b : Json) : Bool := stableJSON a == stableJSON b

/-- `reflect.DeepEqual` on two decoded `[]any` slices. -/
def Json.beqList (a b : List Json) : Bool := a.map stableJSON == b.map stableJSON

/-- JSON whitespace. -/
def jsonWs (c : Char) : Bool := c = ' ' ∨ c = '\t' ∨ c = '\n' ∨ c = '\r'

/-- Skip JSON whitespace. -/
def skipWs (cs : List Char) : List Char := cs.dropWhile jsonWs

/-- Hexadecimal digit value. -/
def hexVal (c : Char) : Option ℕ :=
  if '0' ≤ c ∧ c ≤ '9' then some (c.toNat - 48)
  else if 'a' ≤ c ∧ c ≤ 'f' then some (c.toNat - 87)
  else if 'A' ≤ c ∧ c ≤ 'F' then some (c.toNat - 55)
  else none

/-- Parse the remainder of a JSON string literal (after the opening
quote), decoding escapes; returns the characters and the rest of the
input.  `\uXXXX` escapes decode to the scalar value (surrogate-pair
recombination is not modelled; no claim exercises it). -/
def parseJStringAux : List Char → Option (List Char × List Char)
  | [] => none
  | c :: cs =>
    if c = '"' then some ([], cs)
    else if c = '\\' then
      match cs with
      | [] => none
      | e :: cs' =>
        if e = '"' ∨ e = '\\' ∨ e = '/' then
          (parseJStringAux cs').map fun r => (e :: r.1, r.2)
        else if e = 'n' then (parseJStringAux cs').map fun r => ('\n' :: r.1, r.2)
        else if e = 't' then (parseJStringAux cs').map fun r => ('\t' :: r.1, r.2)
        else if e = 'r' then (parseJStringAux cs').map fun r => ('\r' :: r.1, r.2)
        else if e = 'b' then (parseJStringAux cs').map fun r => (Char.ofNat 8 :: r.1, r.2)
        else if e = 'f' then (parseJStringAux cs').map fun r => (Char.ofNat 12 :: r.1, r.2)
        else if e = 'u' then
          match cs' with
          | h1 :: h2 :: h3 :: h4 :: cs'' =>
            match hexVal h1, hexVal h2, hexVal h3, hexVal h4 with
            | some a, some b, some c1, some d =>
              (parseJStringAux cs'').map fun r =>
                (Char.ofNat (a * 4096 + b * 256 + c1 * 16 + d) :: r.1, r.2)
            | _, _, _, _ => none
          | _ => none
        else none
    else if c.toNat < 32 then none
    else (parseJStringAux cs).map fun r => (c :: r.1, r.2)

/-- Parse a JSON number (RFC 8259 grammar: optional minus, integer part
without leading zeros, optional fraction, optional exponent), returning
the binary64 value `encoding/json` produces. -/
def parseJNum (cs : List Char) : Option (Json × List Char) :=
  let sgn : Bool × List Char :=
    match cs with
    | '-' :: rest => (true, rest)
    | _ => (false, cs)
  let ip := spanDigits sgn.2
  if ip.1.isEmpty then none
  else if 1 < ip.1.length ∧ ip.1.headD '0' = '0' then none
  else
    let fp : Option (List Char) × List Char :=
      match ip.2 with
      | '.' :: rest =>
        let r := spanDigits rest
        if r.1.isEmpty then (none, []) else (some r.1, r.2)
      | _ => (some [], ip.2)
    match fp.1 with
    | none => none
    | some fracDigits =>
      let cont : ℤ → List Char → Option (Json × List Char) := fun e rest =>
        let mant : ℤ := (digitsToNat ip.1 0 * 10 ^ fracDigits.length + digitsToNat fracDigits 0 : ℕ)
        let mant : ℤ := if sgn.1 then -mant else mant
        let scale : ℕ := fracDigits.length
        let v : Frac :=
          if 0 ≤ e - scale then ⟨mant * 10 ^ (e - scale).toNat, 1⟩
          else ⟨mant, 10 ^ (scale - e).toNat⟩
        some (.num (toF64 v), rest)
      match fp.2 with
      | 'e' :: rest | 'E' :: rest =>
        let es : Bool × List Char :=
          match rest with
          | '-' :: r => (true, r)
          | '+' :: r => (false, r)
          | _ => (false, rest)
        let ed := spanDigits es.2
        if ed.1.isEmpty then none
        else cont (if es.1 then -(digitsToNat ed.1 0 : ℤ) else (digitsToNat ed.1 0 : ℤ)) ed.2
      | rest => cont 0 rest

mutual

/-- Fuel-bounded JSON value parser (`parseJson` supplies ample fuel). -/
def parseVal : Nat → List Char → Option (Json × List Char)
  | 0, _ => none
  | fuel + 1, cs =>
    match skipWs cs with
    | 'n' :: 'u' :: 'l' :: 'l' :: rest => some (.null, rest)
    | 't' :: 'r' :: 'u' :: 'e' :: rest => some (.bool true, rest)
    | 'f' :: 'a' :: 'l' :: 's' :: 'e' :: rest => some (.bool false, rest)
    | '"' :: rest => (parseJStringAux rest).map fun r => (.str (String.mk r.1), r.2)
    | '[' :: rest =>
      (match skipWs rest with
       | ']' :: r2 => some (.arr [], r2)
       | r2 => parseArrElems fuel r2 [])
    | c :: rest =>
      if c = lbrace then
        match skipWs rest with
        | c2 :: r2 =>
          if c2 = rbrace then some (.obj [], r2)
          else parseObjElems fuel (c2 :: r2) []
        | [] => none
      else parseJNum (c :: rest)
    | [] => none

/-- Comma-separated array elements up to `]`. -/
def parseArrElems : Nat → List Char → List Json → Option (Json × List Char)
  | 0, _, _ => none
  | fuel + 1, cs, acc =>
    match parseVal fuel cs with
    | none => none
    | some (v, rest) =>
      match skipWs rest with
      | ',' :: r2 => parseArrElems fuel r2 (v :: acc)
      | ']' :: r2 => some (.arr (v :: acc).reverse, r2)
      | _ => none

/-- Comma-separated `"key": value` object members up to the closing
brace, accumulated with `insertField`. -/
def parseObjElems : Nat → List Char → List (String × Json) → Option (Json × List Char)
  | 0, _, _ => none
  | fuel + 1, cs, acc =>
    match skipWs cs with
    | '"' :: rest =>
      match parseJStringAux rest with
      | none => none
      | some (kcs, rest2) =>
        match skipWs rest2 with
        | ':' :: rest3 =>
          match parseVal fuel rest3 with
          | none => none
          | some (v, rest4) =>
            let acc := insertField (String.mk kcs) v acc
            match skipWs rest4 with
            | ',' :: r5 => parseObjElems fuel r5 acc
            | c5 :: r5 => if c5 = rbrace then some (.obj acc, r5) else none
            | [] => none
        | _ => none
    | _ => none

end

/-- Parse a complete JSON document: one value with only whitespace
around it.  This is both `encoding/json.Unmarshal` into `any` and the
validity notion of `gjson.ValidBytes`. -/
def parseJson (s : String) : Option Json :=
  match parseVal (2 * s.toList.length + 8) s.toList with
  | some (v, rest) => if (skipWs rest).isEmpty then some v else none
  | none => none

/-! ## Diff engine

Direct translation of the diff code in `apps/api/internal/worker`
(`selectionSnapshot`, `selectionDiff`, `buildSelectionDiff` and helpers).
Go's heterogeneous `map[string]any` detail maps are modelled by the
per-builder `DiffDetails` constructors, each carrying exactly the entries
the corresponding Go builder stores. -/

structure selectionSnapshot where
  Exists : Bool
  /-- The snapshot's type tag (field `Type` in Go; `Type` is reserved in
  Lean): one of `string | number | true | false | null | json | none`. -/
  Typ : String
  Raw : String
  Value : String
  deriving DecidableEq, Repr, Inhabited

/-- One entry of the `changes` detail map of an object diff: the old and
new leaf values and, when both parse as numbers, the precision-rounded
delta. -/
structure ChangeEntry where
  old : Json
  new : Json
  delta : Option Frac
  deriving Inhabited

/-- The kind-specific detail map of a diff, one constructor per Go
builder. -/
inductive DiffDetails where
  | initialD (type : String) (current : String)
  | typeChangedD (oldType newType old new : String)
  | textD (old new : String)
  | numberD (old new delta : Frac) (percent : Option Frac)
  | boolD (old new : Bool)
  | nullD (old new : String)
  | dateTimeD (oldNs newNs : ℤ) (deltaSeconds : Frac)
  | arrayPrimD (oldCount newCount : ℕ) (added removed : Multiset String) (reorderedOnly : Bool)
  | arrayObjectD (keyField : String) (added removed updated : List String)
  | arrayFallbackD (oldCount newCount : ℕ)
  | objectD (added removed changedPaths : List String) (changes : List (String × ChangeEntry))
  deriving Inhabited

structure selectionDiff where
  Kind : String
  Changed : Bool
  Summary : String
  Details : DiffDetails
  deriving Inhabited

/-- Does the string start with the given character?
(`strings.HasPrefix` against a one-byte prefix.) -/
def startsWithChar (s : String) (c : Char) : Bool :=
  s.toList.headD (Char.ofNat 0) = c

/-- `selectionKind` from `worker`: map a snapshot's stored type tag to the
diff dispatch kind, distinguishing arrays from objects by the leading
character of the raw text. -/
def selectionKind (snapshot : Option selectionSnapshot) : String :=
  match snapshot with
  | none => "none"
  | some s =>
    if s.Exists = false then "none"
    else if s.Typ = "string" then "text"
    else if s.Typ = "number" then "number"
    else if s.Typ = "true" ∨ s.Typ = "false" then "boolean"
    else if s.Typ = "null" then "null"
    else if s.Typ = "json" then
      let raw := trimGo s.Raw
      let raw := if raw = "" then trimGo s.Value else raw
      if startsWithChar raw '[' then "array"
      else if startsWithChar raw lbrace then "object"
      else "json"
    else "unknown"

/-- `buildTextDiff` from `worker`. -/
def buildTextDiff (previous current : selectionSnapshot) : selectionDiff :=
  let changed := previous.Value != current.Value
  { Kind := "text"
    Changed := changed
    Summary := if changed then "text changed" else "text unchanged"
    Details := .textD previous.Value current.Value }

/-- `buildNumberDiff` from `worker`: parse both values as float64, round
the float difference to the larger of the two operands' apparent decimal
precision, and report old/new/delta plus percent change when the previous
value is non-zero. -/
def buildNumberDiff (previous current : selectionSnapshot) : selectionDiff :=
  match parseFloatQ (trimGo previous.Value), parseFloatQ (trimGo current.Value) with
  | some previousNumber, some currentNumber =>
    let precision := maxDecimalPlaces
      (decimalPlacesFromNumericString previous.Value)
      (decimalPlacesFromNumericString current.Value)
    let delta := roundToDecimalPlaces (fsub currentNumber previousNumber) precision
    let changed := !delta.beqv ⟨0, 1⟩
    let percent : Option Frac :=
      if previousNumber.beqv ⟨0, 1⟩ then none
      else some (fmul (fdiv delta previousNumber) ⟨100, 1⟩)
    { Kind := "number"
      Changed := changed
      Summary := if changed then "number changed by " ++ formatFloat delta else "number unchanged"
      Details := .numberD previousNumber currentNumber delta percent }
  | _, _ => buildTextDiff previous current

/-- `buildBooleanDiff` from `worker`. -/
def buildBooleanDiff (previous current : selectionSnapshot) : selectionDiff :=
  let previousValue := previous.Typ == "true"
  let currentValue := current.Typ == "true"
  let changed := previousValue != currentValue
  { Kind := "boolean"
    Changed := changed
    Summary :=
      if changed then
        "boolean changed from " ++ (if previousValue then "true" else "false") ++
          " to " ++ (if currentValue then "true" else "false")
      else "boolean unchanged"
    Details := .boolD previousValue currentValue }

/-- Exactly `n` decimal digits. -/
def takeDigits (n : ℕ) (cs : List Char) : Option (ℕ × List Char) :=
  let r := spanDigits cs
  if r.1.length = n then some (digitsToNat r.1 0, r.2) else none

/-- Day count from civil date to the 1970-01-01 epoch
(proleptic Gregorian). -/
def daysFromCivil (y m d : ℤ) : ℤ :=
  let y := if m ≤ 2 then y - 1 else y
  let era := Int.fdiv y 400
  let yoe := y - era * 400
  let mp := if 2 < m then m - 3 else m + 9
  let doy := (153 * mp + 2) / 5 + d - 1
  let doe := yoe * 365 + yoe / 4 - yoe / 100 + doy
  era * 146097 + doe - 719468

/-- Days in a month of the proleptic Gregorian calendar. -/
def daysInMonth (y m : ℤ) : ℤ :=
  if m = 2 then
    if y % 4 = 0 ∧ (y % 100 ≠ 0 ∨ y % 400 = 0) then 29 else 28
  else if m = 4 ∨ m = 6 ∨ m = 9 ∨ m = 11 then 30
  else 31

/-- Model of Go's `time.Parse(time.RFC3339Nano, s)`: full date-time with
optional fractional seconds (truncated to nanoseconds) and `Z` or
`±hh:mm` offset, validated field ranges; the result is the instant as
nanoseconds since the Unix epoch.  `parseDateTime` in `worker` tries
this layout first and the fraction-less `time.RFC3339` second, which
accepts exactly the same strings. -/
def parseFrac9 (cs : List Char) : Option (ℕ × List Char) :=
  match cs with
  | '.' :: rest =>
    let r := spanDigits rest
    if r.1.isEmpty then none
    else some (digitsToNat (r.1.take 9) 0 * 10 ^ (9 - (r.1.take 9).length), r.2)
  | _ => some (0, cs)

/-- The `Z`/`±hh:mm` offset suffix, as seconds east of UTC. -/
def parseOffset (cs : List Char) : Option (ℤ × List Char) :=
  match cs with
  | 'Z' :: rest => some (0, rest)
  | c :: rest =>
    if c = '+' ∨ c = '-' then
      match takeDigits 2 rest with
      | none => none
      | some (oh, r) =>
        match r with
        | ':' :: r2 =>
          match takeDigits 2 r2 with
          | none => none
          | some (om, r3) =>
            if oh ≤ 23 ∧ om ≤ 59 then
              let sec : ℤ := oh * 3600 + om * 60
              some (if c = '-' then -sec else sec, r3)
            else none
        | _ => none
    else none
  | [] => none

def parseRFC3339 (cs : List Char) : Option ℤ := do
  let (y, cs) ← takeDigits 4 cs
  let cs ← if cs.headD ' ' = '-' then some cs.tail else none
  let (mo, cs) ← takeDigits 2 cs
  let cs ← if cs.headD ' ' = '-' then some cs.tail else none
  let (d, cs) ← takeDigits 2 cs
  let cs ← if cs.headD ' ' = 'T' then some cs.tail else none
  let (h, cs) ← takeDigits 2 cs
  let cs ← if cs.headD ' ' = ':' then some cs.tail else none
  let (mi, cs) ← takeDigits 2 cs
  let cs ← if cs.headD ' ' = ':' then some cs.tail else none
  let (s, cs) ← takeDigits 2 cs
  let (fracNs, cs) ← parseFrac9 cs
  let (off, rest) ← parseOffset cs
  if rest.isEmpty ∧ 1 ≤ mo ∧ mo ≤ 12 ∧ 1 ≤ d ∧ (d : ℤ) ≤ daysInMonth y mo ∧
      h ≤ 23 ∧ mi ≤ 59 ∧ s ≤ 59 then
    let days := daysFromCivil y mo d
    some (((days * 86400 + h * 3600 + mi * 60 + s) - off) * 1000000000 + fracNs)
  else none

/-- `parseDateTime` from `worker`: trim, reject empty, then RFC 3339
parsing (both layouts the Go code tries accept the same strings). -/
def parseDateTime (value : String) : Option ℤ :=
  let trimmed := trimGo value
  if trimmed = "" then none
  else parseRFC3339 trimmed.toList

/-- `buildDateTimeDiff` from `worker`: `none` unless both values parse as
date-times; otherwise the nanosecond delta.  The detail map stores the
two instants (as epoch nanoseconds rather than re-formatted text) and the
delta in seconds. -/
def buildDateTimeDiff (previous current : selectionSnapshot) : Option selectionDiff :=
  match parseDateTime previous.Value, parseDateTime current.Value with
  | some previousTime, some currentTime =>
    let delta : ℤ := currentTime - previousTime
    let changed := delta != 0
    some
      { Kind := "dateTime"
        Changed := changed
        Summary :=
          if changed then "datetime shifted by " ++ toString delta ++ "ns"
          else "datetime unchanged"
        Details := .dateTimeD previousTime currentTime ⟨delta, 1000000000⟩ }
  | _, _ => none

/-- `json.Unmarshal` into `[]any`: a JSON array, or JSON `null` which
leaves the nil slice (treated as empty). -/
def jsonToArray : Json → Option (List Json)
  | .arr xs => some xs
  | .null => some []
  | _ => none

/-- `parseJSONArrayPair` from `worker`. -/
def parseJSONArrayPair (previous current : selectionSnapshot) :
    Option (List Json × List Json) :=
  match (parseJson previous.Value).bind jsonToArray with
  | none => none
  | some previousArray =>
    match (parseJson current.Value).bind jsonToArray with
    | none => none
    | some currentArray => some (previousArray, currentArray)

/-- `allPrimitives` from `worker`: no element is an object or array. -/
def allPrimitives (values : List Json) : Bool :=
  values.all fun v =>
    match v with
    | .null => true
    | .str _ => true
    | .num _ => true
    | .bool _ => true
    | _ => false

/-- `arrayCountMap` from `worker`: the count map keyed by canonical
encoding (a Go `map[string]int` with positive counts, i.e. a multiset of
encodings) together with the ordered encoding list. -/
def arrayCountMap (values : List Json) : Multiset String × List String :=
  let ordered := values.map stableJSON
  ((ordered : Multiset String), ordered)

/-- `mapCountDiff` from `worker`: per-key positive count differences,
which is exactly multiset subtraction. -/
def mapCountDiff (left right : Multiset String) : Multiset String := left - right

/-- `totalMapCount` from `worker`. -/
def totalMapCount (values : Multiset String) : ℕ := values.card

/-- `buildPrimitiveArrayDiff` from `worker`: `none` unless every element
on both sides is primitive; otherwise multiset deltas, with the pure
reorder case (equal multisets, different order) classified as
`arrayReorder`. -/
def buildPrimitiveArrayDiff (previousArray currentArray : List Json) :
    Option selectionDiff :=
  if !allPrimitives previousArray ∨ !allPrimitives currentArray then none
  else
    let pc := arrayCountMap previousArray
    let cc := arrayCountMap currentArray
    let added := mapCountDiff cc.1 pc.1
    let removed := mapCountDiff pc.1 cc.1
    let reorderOnly : Bool :=
      decide (added = 0) && decide (removed = 0) && decide (pc.2 ≠ cc.2)
    let changed : Bool :=
      reorderOnly || decide (added ≠ 0) || decide (removed ≠ 0)
    some
      { Kind := if reorderOnly then "arrayReorder" else "array"
        Changed := changed
        Summary :=
          if reorderOnly then
            "array reordered (" ++ toString currentArray.length ++ " items)"
          else if changed then
            "array changed (+" ++ toString (totalMapCount added) ++ " -" ++
              toString (totalMapCount removed) ++ ")"
          else "array unchanged"
        Details := .arrayPrimD previousArray.length currentArray.length added removed reorderOnly }

/-- Generic association-list lookup (Go map indexing with presence flag). -/
def alookup {α : Type} : List (String × α) → String → Option α
  | [], _ => none
  | (k, v) :: rest, key => if k = key then some v else alookup rest key

/-- `asObjectSlice` from `worker`: every element must be an object. -/
def asObjectSlice (values : List Json) : Option (List (List (String × Json))) :=
  values.mapM fun v =>
    match v with
    | .obj fields => some fields
    | _ => none

/-- A value usable as an identity key: not absent, and not
null/object/array (the `switch raw.(type)` rejection in `hasUniqueKey`). -/
def scalarKey : Json → Bool
  | .null => false
  | .obj _ => false
  | .arr _ => false
  | _ => true

/-- Loop of `hasUniqueKey` from `worker`, carrying the `seen` set. -/
def hasUniqueKeyAux (key : String) : List (List (String × Json)) → List String → Bool
  | [], _ => true
  | item :: rest, seen =>
    match lookupField item key with
    | none => false
    | some raw =>
      if !scalarKey raw then false
      else
        let encoded := stableJSON raw
        if seen.contains encoded then false
        else hasUniqueKeyAux key rest (encoded :: seen)

/-- `hasUniqueKey` from `worker`: every element carries the field, its
value is scalar and non-null, and all encoded values are distinct. -/
def hasUniqueKey (key : String) (values : List (List (String × Json))) : Bool :=
  hasUniqueKeyAux key values []

/-- Candidate loop of `detectObjectArrayKey`. -/
def detectKeyAux (previous current : List (List (String × Json))) : List String → String
  | [] => ""
  | candidate :: rest =>
    if hasUniqueKey candidate previous && hasUniqueKey candidate current then candidate
    else detectKeyAux previous current rest

/-- `detectObjectArrayKey` from `worker`: first candidate in the fixed
priority order that is unique and scalar across both arrays. -/
def detectObjectArrayKey (previous current : List (List (String × Json))) : String :=
  detectKeyAux previous current ["id", "key", "name", "slug", "uuid"]

/-- Loop of `mapObjectsByKey`, accumulating in array order and failing on
a duplicate encoded key. -/
def mapObjectsByKeyAux (key : String) :
    List (List (String × Json)) → List (String × List (String × Json)) →
    Option (List (String × List (String × Json)))
  | [], acc => some acc
  | item :: rest, acc =>
    match lookupField item key with
    | none => none
    | some keyValue =>
      let encodedKey := stableJSON keyValue
      if (alookup acc encodedKey).isSome then none
      else mapObjectsByKeyAux key rest (acc ++ [(encodedKey, item)])

/-- `mapObjectsByKey` from `worker`. -/
def mapObjectsByKey (values : List (List (String × Json))) (key : String) :
    Option (List (String × List (String × Json))) :=
  mapObjectsByKeyAux key values []

/-- `buildKeyedObjectArrayDiff` from `worker`: identity-keyed comparison
of two object arrays (`none` when no identity key qualifies, letting
`buildArrayDiff` fall back to whole-value equality). -/
def buildKeyedObjectArrayDiff (previousArray currentArray : List Json) :
    Option selectionDiff :=
  match asObjectSlice previousArray, asObjectSlice currentArray with
  | some previousObjects, some currentObjects =>
    let keyField := detectObjectArrayKey previousObjects currentObjects
    if keyField = "" then none
    else
      match mapObjectsByKey previousObjects keyField, mapObjectsByKey currentObjects keyField with
      | some previousMap, some currentMap =>
        let added := sortStrings
          ((currentMap.filter fun kv => (alookup previousMap kv.1).isNone).map Prod.fst)
        let removed := sortStrings
          ((previousMap.filter fun kv => (alookup currentMap kv.1).isNone).map Prod.fst)
        let updated := sortStrings
          ((previousMap.filter fun kv =>
            match alookup currentMap kv.1 with
            | some currentItem => !Json.beq (.obj kv.2) (.obj currentItem)
            | none => false).map Prod.fst)
        let changed : Bool := !added.isEmpty || !removed.isEmpty || !updated.isEmpty
        some
          { Kind := "arrayObject"
            Changed := changed
            Summary :=
              if changed then
                "array objects changed (+" ++ toString added.length ++ " -" ++
                  toString removed.length ++ " ~" ++ toString updated.length ++ ")"
              else "array unchanged"
            Details := .arrayObjectD keyField added removed updated }
      | _, _ => none
  | _, _ => none

/-- `numericValue` from `worker`, restricted to the cases `Unmarshal`
output can contain: a float64, or a string parsing as a float (the other
Go numeric branches are unreachable from decoded JSON). -/
def numericValue : Json → Option Frac
  | .num q => some q
  | .str s =>
    let trimmed := trimGo s
    if trimmed = "" then none else parseFloatQ trimmed
  | _ => none

/-- `decimalPlacesFromValue` from `worker`, on decoded JSON values:
float64 values are re-formatted shortest (`strconv.FormatFloat -1`) and
counted, strings are counted directly, everything else yields `-1`. -/
def decimalPlacesFromValue : Json → ℤ
  | .num q => decimalPlacesFromNumericString (formatShortest q)
  | .str s => decimalPlacesFromNumericString s
  | _ => -1

/-- Accumulated result of `collectObjectDiff`
(the four output collections threaded by pointer in Go). -/
structure ObjAcc where
  added : List String
  removed : List String
  changedPaths : List String
  changes : List (String × ChangeEntry)
  deriving Inhabited

/-- Concatenation of accumulators, preserving traversal order. -/
def ObjAcc.app (a b : ObjAcc) : ObjAcc :=
  ⟨a.added ++ b.added, a.removed ++ b.removed,
   a.changedPaths ++ b.changedPaths, a.changes ++ b.changes⟩

/-- Adjacent-duplicate removal on a sorted list (the key-set union). -/
def dedupSorted : List String → List String
  | [] => []
  | [a] => [a]
  | a :: b :: rest =>
    if a = b then dedupSorted (b :: rest) else a :: dedupSorted (b :: rest)

/-- `collectObjectDiff` from `worker`: walk the sorted key union of two
objects, classifying each dotted path as added, removed or changed and
recursing into nested objects.  Fuel-bounded on the nesting depth;
`buildObjectDiff` supplies fuel exceeding it. -/
def collectObjectDiff : Nat → String → List (String × Json) → List (String × Json) → ObjAcc
  | 0, _, _, _ => ⟨[], [], [], []⟩
  | fuel + 1, pre, previous, current =>
    let keys := dedupSorted (sortStrings (previous.map Prod.fst ++ current.map Prod.fst))
    keys.foldr
      (fun key rest =>
        let path := if pre = "" then key else pre ++ "." ++ key
        let here : ObjAcc :=
          match alookup previous key, alookup current key with
          | none, some _ => ⟨[path], [], [], []⟩
          | some _, none => ⟨[], [path], [], []⟩
          | none, none => ⟨[], [], [], []⟩
          | some previousValue, some currentValue =>
            match previousValue, currentValue with
            | .obj previousObject, .obj currentObject =>
              collectObjectDiff fuel path previousObject currentObject
            | _, _ =>
              if Json.beq previousValue currentValue then ⟨[], [], [], []⟩
              else
                let delta : Option Frac :=
                  match numericValue previousValue, numericValue currentValue with
                  | some previousNumber, some currentNumber =>
                    let precision := maxDecimalPlaces
                      (decimalPlacesFromValue previousValue)
                      (decimalPlacesFromValue currentValue)
                    some (roundToDecimalPlaces (fsub currentNumber previousNumber) precision)
                  | _, _ => none
                ⟨[], [], [path], [(path, ⟨previousValue, currentValue, delta⟩)]⟩
        here.app rest)
      ⟨[], [], [], []⟩

/-- `buildObjectDiff` from `worker`. -/
def buildObjectDiff (previous current : selectionSnapshot) : selectionDiff :=
  match parseJson previous.Value with
  | none => buildTextDiff previous current
  | some previousValue =>
    match parseJson current.Value with
    | none => buildTextDiff previous current
    | some currentValue =>
      match previousValue, currentValue with
      | .obj previousObject, .obj currentObject =>
        -- fuel: the textual length of either side bounds its nesting depth
        let acc := collectObjectDiff
          (previous.Value.toList.length + current.Value.toList.length + 2)
          "" previousObject currentObject
        let added := sortStrings acc.added
        let removed := sortStrings acc.removed
        let changedPaths := sortStrings acc.changedPaths
        let changed : Bool := !added.isEmpty || !removed.isEmpty || !changedPaths.isEmpty
        { Kind := "object"
          Changed := changed
          Summary :=
            if changed then
              "object changed (+" ++ toString added.length ++ " -" ++
                toString removed.length ++ " ~" ++ toString changedPaths.length ++ ")"
            else "object unchanged"
          Details := .objectD added removed changedPaths acc.changes }
      | _, _ => buildTextDiff previous current

/-- `buildArrayDiff` from `worker`: primitive multiset diff, then keyed
object diff, then whole-value equality with only the counts reported. -/
def buildArrayDiff (previous current : selectionSnapshot) : selectionDiff :=
  match parseJSONArrayPair previous current with
  | none => buildTextDiff previous current
  | some (previousArray, currentArray) =>
    match buildPrimitiveArrayDiff previousArray currentArray with
    | some primitiveDiff => primitiveDiff
    | none =>
      match buildKeyedObjectArrayDiff previousArray currentArray with
      | some keyedDiff => keyedDiff
      | none =>
        let changed := !Json.beqList previousArray currentArray
        { Kind := "array"
          Changed := changed
          Summary :=
            if changed then
              "array changed (" ++ toString previousArray.length ++ " to " ++
                toString currentArray.length ++ " items)"
            else "array unchanged"
          Details := .arrayFallbackD previousArray.length currentArray.length }

/-- `buildSelectionDiff` from `worker`: the diff engine entry point. -/
def buildSelectionDiff (previous current : Option selectionSnapshot) :
    Option selectionDiff :=
  match current with
  | none => none
  | some cur =>
    if cur.Exists = false then none
    else
      let currentKind := selectionKind (some cur)
      let initial : selectionDiff :=
        { Kind := "initial"
          Changed := false
          Summary := "initial value captured"
          Details := .initialD currentKind cur.Value }
      match previous with
      | none => some initial
      | some prev =>
        if prev.Exists = false then some initial
        else
          let previousKind := selectionKind (some prev)
          if previousKind ≠ currentKind then
            some
              { Kind := "typeChanged"
                Changed := true
                Summary := "type changed from " ++ previousKind ++ " to " ++ currentKind
                Details := .typeChangedD previousKind currentKind prev.Value cur.Value }
          else if currentKind = "number" then some (buildNumberDiff prev cur)
          else if currentKind = "boolean" then some (buildBooleanDiff prev cur)
          else if currentKind = "null" then
            let changed := prev.Typ != cur.Typ
            some
              { Kind := "null"
                Changed := changed
                Summary := if changed then "value changed to null" else "null unchanged"
                Details := .nullD prev.Value cur.Value }
          else if currentKind = "text" then
            match buildDateTimeDiff prev cur with
            | some dateDiff => some dateDiff
            | none => some (buildTextDiff prev cur)
          else if currentKind = "array" then some (buildArrayDiff prev cur)
          else if currentKind = "object" then some (buildObjectDiff prev cur)
          else some (buildTextDiff prev cur)

/-! ## Selector evaluator

Translation of `apps/api/internal/selector` (`SelectJSON`).  The gjson
library calls are modelled on the parsed document: `gjson.ValidBytes` is
`parseJson` succeeding, and `gjson.GetBytes` is resolution of a
dot-separated path of object keys and array indices (the subset of the
gjson path language relevant to selector resolution; wildcards, queries
and modifiers are not modelled).  A result's `Raw` text is rendered from
the canonical encoding rather than sliced from the source bytes. -/

structure Selection where
  Exists : Bool
  /-- Field `Type` in Go. -/
  Typ : String
  Raw : String
  Value : String
  deriving DecidableEq, Repr, Inhabited

/-- `gjsonType` from `selector`: gjson's type tag of a result. -/
def gjsonTypeOf : Json → String
  | .null => "null"
  | .bool false => "false"
  | .bool true => "true"
  | .num _ => "number"
  | .str _ => "string"
  | .arr _ => "json"
  | .obj _ => "json"

/-- The raw text of a gjson result, rendered canonically. -/
def gjsonRaw : Json → String := stableJSON

/-- `normalizeValue` from `selector`: strings are trimmed as-is; every
other kind is round-tripped through JSON decode → encode for a canonical
form, falling back to the trimmed raw text. -/
def normalizeValue (result : Json) (raw : String) : String :=
  match result with
  | .str s => trimGo s
  | _ =>
    let trimmedRaw := trimGo raw
    let trimmedRaw :=
      if trimmedRaw = "" then
        match result with
        | .null => "null"
        | _ => trimmedRaw
      else trimmedRaw
    match parseJson trimmedRaw with
    | some decoded => trimGo (stableJSON decoded)
    | none => trimmedRaw

/-- Split a path on `.` (gjson separator; escape sequences unmodelled). -/
def splitOnDot : List Char → List (List Char)
  | [] => [[]]
  | c :: rest =>
    if c = '.' then [] :: splitOnDot rest
    else
      match splitOnDot rest with
      | h :: t => (c :: h) :: t
      | [] => [[c]]

/-- Resolve one path segment against a value: object-key lookup, or a
numeric index into an array. -/
def gjsonGet : Json → List (List Char) → Option Json
  | v, [] => some v
  | .obj fields, seg :: rest =>
    match alookup fields (String.mk seg) with
    | some v => gjsonGet v rest
    | none => none
  | .arr xs, seg :: rest =>
    if seg.isEmpty ∨ ¬seg.all Char.isDigit then none
    else
      match xs.get? (digitsToNat seg 0) with
      | some v => gjsonGet v rest
      | none => none
  | _, _ :: _ => none

/-- `SelectJSON` from `selector`: hard error on invalid top-level JSON;
the whole (trimmed) document when the path is empty; a non-existing
selection (not an error) when the path resolves to nothing. -/
def SelectJSON (payload : String) (selector : String) : Except String Selection :=
  match parseJson payload with
  | none => .error "invalid JSON payload"
  | some root =>
    let trimmedSelector := trimGo selector
    if trimmedSelector = "" then
      let raw := trimGo payload
      .ok { Exists := true, Typ := gjsonTypeOf root, Raw := raw
            Value := normalizeValue root raw }
    else
      match gjsonGet root (splitOnDot trimmedSelector.toList) with
      | none => .ok { Exists := false, Typ := "none", Raw := "", Value := "" }
      | some selected =>
        let raw := trimGo (gjsonRaw selected)
        .ok { Exists := true, Typ := gjsonTypeOf selected, Raw := raw
              Value := normalizeValue selected raw }

/-! ## Check executor, retry controller and scheduler

Pure model of `worker.go`.  The HTTP transport, the database handle and
the wall clock are replaced by explicit parameters: an execution is a
function from the attempt index to its result, cron parsing is a
parameter `parseCron : String → Except String (ℤ → ℤ)` (robfig/cron's
`ParseStandard`, whose success is independent of the evaluation instant,
followed by `Schedule.Next`), and instants are integers (Unix seconds). -/

inductive RStatus where
  | pending
  | ok
  | error
  | retrying
  | disabled
  deriving DecidableEq, Repr, Inhabited

/-- The `ent` status-string conversion used by
`SetStatus(monitorruntime.Status(result.status))`; an execution result's
status is always `"ok"` or `"error"`. -/
def statusOfString (s : String) : RStatus :=
  if s = "pending" then .pending
  else if s = "ok" then .ok
  else if s = "retrying" then .retrying
  else if s = "disabled" then .disabled
  else .error

/-- The target configuration fields the scheduler reads. -/
structure MonitorT where
  enabled : Bool
  cron : String
  deriving DecidableEq, Repr

/-- `MonitorRuntime`: the mutable per-target scheduling state. -/
structure RT where
  status : RStatus
  nextRunAt : Option ℤ
  checkCount : ℤ
  successCount : ℤ
  errorCount : ℤ
  retryCount : ℤ
  consecutiveSuccesses : ℤ
  consecutiveErrors : ℤ
  lastCheckAt : Option ℤ
  lastSuccessAt : Option ℤ
  lastErrorAt : Option ℤ
  lastStatusCode : Option ℤ
  lastDurationMs : Option ℤ
  lastErrorMessage : Option String
  deriving DecidableEq, Repr

/-- A freshly created runtime row (all counters at their `ent` defaults). -/
def freshRT : RT :=
  { status := .pending, nextRunAt := none, checkCount := 0, successCount := 0
    errorCount := 0, retryCount := 0, consecutiveSuccesses := 0
    consecutiveErrors := 0, lastCheckAt := none, lastSuccessAt := none
    lastErrorAt := none, lastStatusCode := none, lastDurationMs := none
    lastErrorMessage := none }

/-- `nextRunFromCron` from `worker`: parse the cron expression and take
the next activation after `now`. -/
def nextRunFromCron (parseCron : String → Except String (ℤ → ℤ))
    (expr : String) (now : ℤ) : Except String ℤ :=
  (parseCron expr).map fun next => next now

/-- `executionResult` from `worker` (the diff field is attached later by
`runMonitor` and does not feed the runtime update). -/
structure executionResult where
  status : String
  statusCode : Option ℤ
  durationMs : Option ℤ
  errorMessage : Option String
  selection : Option selectionSnapshot
  checkedAt : ℤ
  success : Bool
  deriving DecidableEq, Repr

/-- `ensureRuntime` from `worker`: create or repair the runtime row of a
target at the start of a tick. -/
def ensureRuntime (parseCron : String → Except String (ℤ → ℤ))
    (mon : MonitorT) (rt : Option RT) (now : ℤ) : RT :=
  match rt with
  | none =>
    if mon.enabled = false then { freshRT with status := .disabled }
    else
      match nextRunFromCron parseCron mon.cron now with
      | .ok nextRun => { freshRT with status := .pending, nextRunAt := some nextRun }
      | .error _ => { freshRT with status := .pending }
  | some r =>
    if mon.enabled = false then
      if r.status = .pending ∧ r.nextRunAt ≠ none then r
      else if r.status ≠ .disabled then { r with status := .disabled, nextRunAt := none }
      else r
    else if r.status = .disabled then
      let r' := { r with status := RStatus.pending }
      if r.nextRunAt = none then
        match nextRunFromCron parseCron mon.cron now with
        | .ok t => { r' with nextRunAt := some t }
        | .error _ => r'
      else r'
    else if r.nextRunAt = none then
      match nextRunFromCron parseCron mon.cron now with
      | .error msg => { r with status := .error, lastErrorMessage := some msg }
      | .ok t => { r with nextRunAt := some t }
    else r

/-- The runtime update `runMonitor` persists after a check (`worker.go`,
the update builder between the check result insert and `Save`):
counters, status/next-run (or disable-and-clear after a forced run on a
disabled target, with a one-minute fallback when the cron expression no
longer parses), streaks, last-timestamps and last status/duration
set-or-cleared. -/
def applyRunUpdate (parseCron : String → Except String (ℤ → ℤ))
    (mon : MonitorT) (rt : RT) (result : executionResult)
    (retriesUsed : ℕ) (now : ℤ) (disableAfterRun : Bool) : RT :=
  let rt := { rt with
    checkCount := rt.checkCount + 1
    retryCount := rt.retryCount + retriesUsed
    lastCheckAt := some result.checkedAt }
  let rt :=
    if disableAfterRun then { rt with status := RStatus.disabled, nextRunAt := none }
    else
      let nextRun :=
        match nextRunFromCron parseCron mon.cron now with
        | .ok t => t
        | .error _ => now + 60
      { rt with status := statusOfString result.status, nextRunAt := some nextRun }
  let rt :=
    if result.success then
      { rt with
        successCount := rt.successCount + 1
        consecutiveErrors := 0
        consecutiveSuccesses := rt.consecutiveSuccesses + 1
        lastSuccessAt := some result.checkedAt
        lastErrorMessage := none }
    else
      let rt := { rt with
        errorCount := rt.errorCount + 1
        consecutiveSuccesses := 0
        consecutiveErrors := rt.consecutiveErrors + 1
        lastErrorAt := some result.checkedAt }
      match result.errorMessage with
      | some msg => { rt with lastErrorMessage := some msg }
      | none => rt
  { rt with
    lastStatusCode := result.statusCode
    lastDurationMs := result.durationMs }

/-- `maxRetries` from `worker`: extra attempts beyond the first. -/
def maxRetries : ℕ := 2

/-- The retry loop of `executeWithRetry`.  `exec` maps an attempt index
to its result (`executeOnce`), `cancelled` tells whether the shutdown
signal fires during the backoff wait after the given attempt.  Each
retry transition also persists a `retrying` status (one persist per
retry counted, exactly `retriesUsed` of them).  Fuel-bounded;
`executeWithRetry` supplies `maxRetries + 1`, enough for every attempt. -/
def retryLoop (exec : ℕ → executionResult) (cancelled : ℕ → Bool)
    (maxR : ℕ) : ℕ → ℕ → ℕ → executionResult × ℕ
  | 0, attempt, retriesUsed => (exec attempt, retriesUsed)
  | fuel + 1, attempt, retriesUsed =>
    let result := exec attempt
    if result.success then (result, retriesUsed)
    else if attempt = maxR then (result, retriesUsed)
    else
      let retriesUsed := retriesUsed + 1
      if cancelled attempt then
        ({ result with
            errorMessage := some "worker stopped"
            success := false
            status := "error" }, retriesUsed)
      else retryLoop exec cancelled maxR fuel (attempt + 1) retriesUsed

/-- `executeWithRetry` from `worker`. -/
def executeWithRetry (exec : ℕ → executionResult) (cancelled : ℕ → Bool) :
    executionResult × ℕ :=
  retryLoop exec cancelled maxRetries (maxRetries + 1) 0 0

/-- The error message of an oversized response body
(`executeOnce`, naming the configured limit). -/
def sizeLimitError (maxBytes : ℕ) : String :=
  "response body exceeds " ++ toString maxBytes ++
    " bytes limit (increase GOANNA_MAX_RESPONSE_BODY_BYTES)"

/-- `evaluateResponse` from `worker`. -/
def evaluateResponse (statusCode : ℤ) (payload : String)
    (expectedType : String) (selector : Option String)
    (expected : Option String) : Bool × String × Option Selection :=
  if statusCode < 200 ∨ 300 ≤ statusCode then
    (false, "unexpected status code: " ++ toString statusCode, none)
  else
    let trimmedExpected :=
      match expected with
      | some e => trimGo e
      | none => ""
    if expectedType = "json" then
      let selectorPath :=
        match selector with
        | some s => trimGo s
        | none => ""
      match SelectJSON payload selectorPath with
      | .error _ => (false, "response is not valid JSON", none)
      | .ok selection =>
        if selectorPath ≠ "" ∧ selection.Exists = false then
          (false, "selector " ++ jsonQuote selectorPath ++ " not found", some selection)
        else if trimmedExpected = "" then (true, "", some selection)
        else if selection.Value ≠ trimmedExpected then
          (false, "JSON assertion failed", some selection)
        else (true, "", some selection)
    else if expectedType = "html" ∨ expectedType = "text" then
      if (match selector with
          | some s => trimGo s != ""
          | none => false) then
        (false, "selector is only supported for JSON expectedType", none)
      else if trimmedExpected = "" then (true, "", none)
      else if trimGo payload ≠ trimmedExpected then (false, "text assertion failed", none)
      else (true, "", none)
    else (false, "unsupported expectedType", none)

/-- The HTTP response an execution observed. -/
structure RespT where
  statusCode : ℤ
  body : String
  deriving DecidableEq, Repr

/-- `executeOnce` from `worker`, from the point a response was obtained
(request building, transport errors and the wall clock live outside the
model; `checkedAt`/`durationMs` are passed in): read at most
`limit + 1` bytes, fail naming the limit when the body exceeds it, else
evaluate expectations. -/
def executeOnceResp (maxResponseBodyBytes : ℕ) (expectedType : String)
    (selector expected : Option String) (resp : RespT)
    (checkedAt durationMs : ℤ) : executionResult :=
  let base : executionResult :=
    { status := "error", success := false
      statusCode := some resp.statusCode, durationMs := some durationMs
      errorMessage := none, selection := none, checkedAt := checkedAt }
  let payload := String.mk (resp.body.toList.take (maxResponseBodyBytes + 1))
  if maxResponseBodyBytes < payload.toList.length then
    { base with errorMessage := some (sizeLimitError maxResponseBodyBytes) }
  else
    let er := evaluateResponse resp.statusCode payload expectedType selector expected
    let base :=
      { base with
          selection := er.2.2.map fun (sel : Selection) =>
            ({ Exists := sel.Exists, Typ := sel.Typ, Raw := sel.Raw
               Value := sel.Value } : selectionSnapshot) }
    if er.1 = false then
      { base with errorMessage := if er.2.1 ≠ "" then some er.2.1 else none }
    else { base with status := "ok", success := true, errorMessage := none }

/-- One target's slice of a scheduler tick (`tick` lines 106–133 plus the
runtime effect of `runMonitor`): repair the runtime, decide due-ness,
gate disabled targets, run and apply the update.  Returns the persisted
runtime and whether the check executed. -/
def tickOne (parseCron : String → Except String (ℤ → ℤ)) (mon : MonitorT)
    (rt : Option RT) (now : ℤ) (result : executionResult)
    (retriesUsed : ℕ) : RT × Bool :=
  let runtime := ensureRuntime parseCron mon rt now
  match runtime.nextRunAt with
  | none => (runtime, false)
  | some t =>
    if now < t then (runtime, false)
    else
      let manualDisabledRun := !mon.enabled
      if manualDisabledRun && runtime.status ≠ RStatus.pending then (runtime, false)
      else if !manualDisabledRun && !mon.enabled then (runtime, false)
      else (applyRunUpdate parseCron mon runtime result retriesUsed now manualDisabledRun, true)

/-- `shouldTriggerStartupCatchUp` from `worker`. -/
def shouldTriggerStartupCatchUp (nextRunAt : Option ℤ) (startupAt : ℤ) : Bool :=
  match nextRunAt with
  | none => false
  | some t => !(startupAt < t)

/-- A stored check-result row (the columns `pruneCheckHistory` touches). -/
structure CheckRow where
  id : ℤ
  monitorId : ℤ
  checkedAt : ℤ
  status : String
  deriving DecidableEq, Repr

/-- Descending `(checked_at, id)` insertion (the retention query's
`Order(Desc(checked_at), Desc(id))`). -/
def insertDescRow (r : CheckRow) : List CheckRow → List CheckRow
  | [] => [r]
  | s :: rest =>
    if r.checkedAt > s.checkedAt ∨ (r.checkedAt = s.checkedAt ∧ r.id ≥ s.id) then
      r :: s :: rest
    else s :: insertDescRow r rest

/-- Sort rows by descending `(checked_at, id)`. -/
def sortRowsDesc (rows : List CheckRow) : List CheckRow :=
  rows.foldr insertDescRow []

/-- `pruneCheckHistory` from `worker`: keep the most recent `keep` rows
of the monitor; a non-positive retention returns immediately.  The
store is the full check-result table; rows of other monitors are never
touched. -/
def pruneCheckHistory (db : List CheckRow) (monitorId : ℤ) (keep : ℤ) : List CheckRow :=
  if keep ≤ 0 then db
  else
    let mine := db.filter fun r => r.monitorId == monitorId
    let stale := (sortRowsDesc mine).drop keep.toNat
    if stale.isEmpty then db
    else
      let ids := stale.map CheckRow.id
      db.filter fun r => !ids.contains r.id

/-- Runtime states reachable through the scheduler's per-target state
machine, over-approximating `tick`/`runMonitor`: any interleaving of
runtime repair (`ensureRuntime`), the mid-retry `retrying` persist
(which only happens while a due check runs, hence with `next_run_at`
set), and the post-run update (`applyRunUpdate`). -/
inductive Reach (parseCron : String → Except String (ℤ → ℤ)) (mon : MonitorT) :
    Option RT → Prop
  | init : Reach parseCron mon none
  | ensure (now : ℤ) {rt : Option RT} :
      Reach parseCron mon rt →
      Reach parseCron mon (some (ensureRuntime parseCron mon rt now))
  | retryingStep {rt : RT} :
      Reach parseCron mon (some rt) →
      rt.nextRunAt ≠ none →
      Reach parseCron mon (some { rt with status := RStatus.retrying })
  | run (now : ℤ) (result : executionResult) (retriesUsed : ℕ)
      (disableAfterRun : Bool) {rt : RT} :
      Reach parseCron mon (some rt) →
      Reach parseCron mon
        (some (applyRunUpdate parseCron mon rt result retriesUsed now disableAfterRun))

/-! ## Theorems -/

/-- C9: `pruneCheckHistory` with a retention limit of zero or below
deletes nothing — the stored check-result history is returned entirely
unchanged, so a non-positive configured retention disables pruning
rather than deleting all rows. -/
theorem C9_prune_nonpositive_keep_noop (db : List CheckRow) (monitorId keep : ℤ)
    (h : keep ≤ 0) : pruneCheckHistory db monitorId keep = db := by
  unfold pruneCheckHistory
  simp [h]

/-- C9 witness: a concrete two-row store with `keep = 0` is untouched. -/
theorem C9_prune_witness :
    (0 : ℤ) ≤ 0 ∧
      pruneCheckHistory [⟨1, 7, 10, "ok"⟩, ⟨2, 7, 11, "error"⟩] 7 0 =
        [⟨1, 7, 10, "ok"⟩, ⟨2, 7, 11, "error"⟩] :=
  ⟨by decide, C9_prune_nonpositive_keep_noop _ 7 0 (by decide)⟩

/-- Invariant of the retry loop when every attempt fails and no
cancellation fires: the loop walks to the final attempt and counts one
retry per attempt beyond the first. -/
theorem retryLoop_all_fail (exec : ℕ → executionResult) (cancelled : ℕ → Bool)
    (m : ℕ) (hf : ∀ i, (exec i).success = false) (hc : ∀ i, cancelled i = false) :
    ∀ fuel attempt retried, attempt ≤ m → fuel = m + 1 - attempt →
      retryLoop exec cancelled m fuel attempt retried = (exec m, retried + (m - attempt)) := by
  intro fuel
  induction fuel with
  | zero => intro attempt retried hle hfuel; omega
  | succ fuel ih =>
    intro attempt retried hle hfuel
    unfold retryLoop
    simp only [hf attempt, hc attempt, Bool.false_eq_true, if_false]
    by_cases hat : attempt = m
    · subst hat
      simp
    · have hlt : attempt < m := lt_of_le_of_ne hle hat
      simp only [hat, if_false]
      rw [ih (attempt + 1) (retried + 1) (by omega) (by omega)]
      have : retried + 1 + (m - (attempt + 1)) = retried + (m - attempt) := by omega
      rw [this]

/-- C5: when every attempt fails (and shutdown never fires during
backoff), the retry controller performs exactly `maxRetries` (= 2) extra
attempts beyond the first, returns the final attempt's result
unconditionally with status `"error"`, and the reported retries-used
count — the amount `runMonitor` adds to the runtime's `retry_count` —
equals exactly the number of attempts beyond the first. -/
theorem C5_retry_exhaustion (exec : ℕ → executionResult) (cancelled : ℕ → Bool)
    (hf : ∀ i, (exec i).success = false) (hs : ∀ i, (exec i).status = "error")
    (hc : ∀ i, cancelled i = false) :
    executeWithRetry exec cancelled = (exec maxRetries, maxRetries) ∧
    (executeWithRetry exec cancelled).1.status = "error" ∧
    maxRetries = 2 ∧
    ∀ (parseCron : String → Except String (ℤ → ℤ)) (mon : MonitorT) (rt : RT) (now : ℤ),
      (applyRunUpdate parseCron mon rt (executeWithRetry exec cancelled).1
          (executeWithRetry exec cancelled).2 now false).retryCount =
        rt.retryCount + (maxRetries : ℤ) ∧
      (applyRunUpdate parseCron mon rt (executeWithRetry exec cancelled).1
          (executeWithRetry exec cancelled).2 now false).status = RStatus.error := by
  have hrun : executeWithRetry exec cancelled = (exec maxRetries, maxRetries) := by
    unfold executeWithRetry
    rw [retryLoop_all_fail exec cancelled maxRetries hf hc (maxRetries + 1) 0 0
      (Nat.zero_le _) (by omega)]
    simp
  refine ⟨hrun, by rw [hrun]; exact hs maxRetries, rfl, ?_⟩
  intro parseCron mon rt now
  rw [hrun]
  constructor
  · cases hm : (exec maxRetries).errorMessage <;>
      simp [applyRunUpdate, hf maxRetries, hm]
  · cases hm : (exec maxRetries).errorMessage <;>
      simp [applyRunUpdate, hf maxRetries, hs maxRetries, statusOfString, hm]

/-- A concrete always-failing execution result (HTTP 500). -/
def fail500 : executionResult :=
  { status := "error", statusCode := some 500, durationMs := some 3
    errorMessage := some "unexpected status code: 500", selection := none
    checkedAt := 0, success := false }

/-- C5 witness: an endpoint that always returns 500 exhausts the two
configured retries; the final result is returned and `retry_count`
grows by exactly 2. -/
theorem C5_retry_witness :
    executeWithRetry (fun _ => fail500) (fun _ => false) = (fail500, 2) ∧
    (applyRunUpdate (fun _ => Except.error "unused") ⟨true, "* * * * *"⟩ freshRT
        (executeWithRetry (fun _ => fail500) (fun _ => false)).1
        (executeWithRetry (fun _ => fail500) (fun _ => false)).2 0 false).retryCount =
      freshRT.retryCount + 2 :=
  have h := C5_retry_exhaustion (fun _ => fail500) (fun _ => false)
    (fun _ => rfl) (fun _ => rfl) (fun _ => rfl)
  ⟨h.1, (h.2.2.2 (fun _ => Except.error "unused") ⟨true, "* * * * *"⟩ freshRT 0).1⟩

/-- Rebuilding a string from its character list is the identity. -/
theorem stringMk_toList (s : String) : String.mk s.toList = s := by
  cases s
  rfl

/-- C6: for a check whose response meets its expectations, a body of
exactly the configured maximum size succeeds, while a body of the
maximum size plus one byte — the executor reads at most `limit + 1`
bytes — fails with an error message naming the configured byte limit
and captures no selection. -/
theorem C6_body_size_boundary (maxBytes : ℕ) (expectedType : String)
    (selector expected : Option String) (resp : RespT) (checkedAt durationMs : ℤ)
    (_h2xx : 200 ≤ resp.statusCode ∧ resp.statusCode < 300) :
    (resp.body.toList.length = maxBytes →
      (evaluateResponse resp.statusCode resp.body expectedType selector expected).1 = true →
      (executeOnceResp maxBytes expectedType selector expected resp checkedAt durationMs).success = true ∧
      (executeOnceResp maxBytes expectedType selector expected resp checkedAt durationMs).status = "ok" ∧
      (executeOnceResp maxBytes expectedType selector expected resp checkedAt durationMs).errorMessage = none) ∧
    (resp.body.toList.length = maxBytes + 1 →
      (executeOnceResp maxBytes expectedType selector expected resp checkedAt durationMs).success = false ∧
      (executeOnceResp maxBytes expectedType selector expected resp checkedAt durationMs).errorMessage =
        some (sizeLimitError maxBytes) ∧
      (executeOnceResp maxBytes expectedType selector expected resp checkedAt durationMs).selection = none) := by
  constructor
  · intro hlen heval
    have hle : resp.body.toList.length ≤ maxBytes + 1 := by omega
    have hpay : String.mk (resp.body.toList.take (maxBytes + 1)) = resp.body := by
      rw [List.take_of_length_le hle, stringMk_toList]
    unfold executeOnceResp
    rw [hpay]
    have hnotover : ¬maxBytes < resp.body.toList.length := by omega
    simp only [hnotover, if_false, heval]
    simp
  · intro hlen
    have hle : resp.body.toList.length ≤ maxBytes + 1 := by omega
    have htake : resp.body.toList.take (maxBytes + 1) = resp.body.toList :=
      List.take_of_length_le hle
    unfold executeOnceResp
    rw [htake]
    have hover : maxBytes < (String.mk resp.body.toList).toList.length := by
      show maxBytes < resp.body.toList.length
      omega
    simp only [hover, if_true]
    simp

/-- C6 witness: with a 4-byte limit, the 4-byte body `true` passes and
the 5-byte body `false` fails naming the limit. -/
theorem C6_body_size_witness :
    (executeOnceResp 4 "json" none none ⟨200, "true"⟩ 0 5).success = true ∧
    (executeOnceResp 4 "json" none none ⟨200, "false"⟩ 0 5).success = false ∧
    (executeOnceResp 4 "json" none none ⟨200, "false"⟩ 0 5).errorMessage =
      some (sizeLimitError 4) :=
  have h1 := (C6_body_size_boundary 4 "json" none none ⟨200, "true"⟩ 0 5
    (by constructor <;> decide)).1 (by decide) (by decide)
  have h2 := (C6_body_size_boundary 4 "json" none none ⟨200, "false"⟩ 0 5
    (by constructor <;> decide)).2 (by decide)
  ⟨h1.1, h2.1, h2.2.1⟩

/-- C7: a disabled target whose runtime was explicitly set to `pending`
with a due `next_run_at` executes exactly once on the next due tick and
transitions back to `disabled` with `next_run_at` cleared (no
rescheduling), so it is never due again until re-triggered; a disabled
target whose runtime is in any other status is never executed. -/
theorem C7_disabled_forced_run (parseCron : String → Except String (ℤ → ℤ))
    (mon : MonitorT) (rt : RT) (now t : ℤ) (result : executionResult)
    (retriesUsed : ℕ) (hdis : mon.enabled = false) :
    (rt.status = RStatus.pending → rt.nextRunAt = some t → t ≤ now →
      (tickOne parseCron mon (some rt) now result retriesUsed).2 = true ∧
      (tickOne parseCron mon (some rt) now result retriesUsed).1.status = RStatus.disabled ∧
      (tickOne parseCron mon (some rt) now result retriesUsed).1.nextRunAt = none ∧
      (∀ (now' : ℤ) (result' : executionResult) (retriesUsed' : ℕ),
        (tickOne parseCron mon
          (some (tickOne parseCron mon (some rt) now result retriesUsed).1)
          now' result' retriesUsed').2 = false)) ∧
    (rt.status ≠ RStatus.pending →
      (tickOne parseCron mon (some rt) now result retriesUsed).2 = false) := by
  have hensure_disabled : ∀ r : RT, r.status = RStatus.disabled → r.nextRunAt = none →
      ∀ (now' : ℤ) (result' : executionResult) (retriesUsed' : ℕ),
        (tickOne parseCron mon (some r) now' result' retriesUsed').2 = false := by
    intro r hst hnext now' result' retriesUsed'
    unfold tickOne ensureRuntime
    simp [hdis, hst, hnext]
  constructor
  · intro hpend hnext hdue
    have hens : ensureRuntime parseCron mon (some rt) now = rt := by
      unfold ensureRuntime
      simp [hdis, hpend, hnext]
    have hrun : tickOne parseCron mon (some rt) now result retriesUsed =
        (applyRunUpdate parseCron mon rt result retriesUsed now true, true) := by
      unfold tickOne
      rw [hens]
      simp only [hnext]
      have : ¬now < t := by omega
      simp [this, hdis, hpend]
    have hupd_status : (applyRunUpdate parseCron mon rt result retriesUsed now true).status =
        RStatus.disabled ∧
        (applyRunUpdate parseCron mon rt result retriesUsed now true).nextRunAt = none := by
      unfold applyRunUpdate
      cases result.success <;> cases result.errorMessage <;> simp
    refine ⟨by rw [hrun], by rw [hrun]; exact hupd_status.1, by rw [hrun]; exact hupd_status.2, ?_⟩
    intro now' result' retriesUsed'
    rw [hrun]
    exact hensure_disabled _ hupd_status.1 hupd_status.2 now' result' retriesUsed'
  · intro hnp
    unfold tickOne ensureRuntime
    have hguard : ¬(rt.status = RStatus.pending ∧ rt.nextRunAt ≠ none) := by
      intro h
      exact hnp h.1
    by_cases hst : rt.status = RStatus.disabled
    · cases hnx : rt.nextRunAt with
      | none => simp [hdis, hguard, hst, hnx]
      | some u =>
        simp only [hdis, Bool.false_eq_true, if_false, hguard, hst]
        by_cases hlt : now < u
        · simp [hnx, hlt]
        · simp [hnx, hlt, hst]
    · simp [hdis, hguard, hst]

/-- C7 witness: a concrete disabled target forced to `pending` with
`next_run_at = 0` runs once at tick time `5` and reverts to disabled,
and a disabled target whose runtime is `ok` never runs. -/
theorem C7_disabled_forced_run_witness :
    ((tickOne (fun _ => Except.ok fun t => t + 300) ⟨false, "*/5 * * * *"⟩
        (some { freshRT with status := RStatus.pending, nextRunAt := some 0 })
        5 fail500 0).2 = true ∧
      (tickOne (fun _ => Except.ok fun t => t + 300) ⟨false, "*/5 * * * *"⟩
        (some { freshRT with status := RStatus.pending, nextRunAt := some 0 })
        5 fail500 0).1.status = RStatus.disabled) ∧
    (tickOne (fun _ => Except.ok fun t => t + 300) ⟨false, "*/5 * * * *"⟩
        (some { freshRT with status := RStatus.ok, nextRunAt := some 0 })
        5 fail500 0).2 = false :=
  have h := C7_disabled_forced_run (fun _ => Except.ok fun t => t + 300)
    ⟨false, "*/5 * * * *"⟩ { freshRT with status := RStatus.pending, nextRunAt := some 0 }
    5 0 fail500 0 rfl
  have h2 := C7_disabled_forced_run (fun _ => Except.ok fun t => t + 300)
    ⟨false, "*/5 * * * *"⟩ { freshRT with status := RStatus.ok, nextRunAt := some 0 }
    5 0 fail500 0 rfl
  have ha := h.1 rfl rfl (by omega)
  ⟨⟨ha.1, ha.2.1⟩, h2.2 (by decide)⟩

/-- A cron parser that rejects its input, the behaviour of
`cron.ParseStandard` on a malformed expression. -/
def cronAlwaysErr : String → Except String (ℤ → ℤ) := fun _ => Except.error "bad cron"


theorem nextRunFromCron_error {parseCron : String → Except String (ℤ → ℤ)}
    {expr : String} {now : ℤ} {msg : String}
    (h : nextRunFromCron parseCron expr now = Except.error msg) :
    parseCron expr = Except.error msg := by
  unfold nextRunFromCron at h
  cases hp : parseCron expr with
  | ok f => rw [hp] at h; simp [Except.map] at h
  | error m =>
    rw [hp] at h
    simp [Except.map] at h
    rw [h]

theorem ensureRuntime_none_inv (parseCron : String → Except String (ℤ → ℤ))
    (mon : MonitorT) (rt0 : Option RT) (now : ℤ)
    (hnone : (ensureRuntime parseCron mon rt0 now).nextRunAt = none) :
    (ensureRuntime parseCron mon rt0 now).status = RStatus.disabled ∨
      ((∃ msg, parseCron mon.cron = Except.error msg) ∧
        ((ensureRuntime parseCron mon rt0 now).status = RStatus.pending ∨
          (ensureRuntime parseCron mon rt0 now).status = RStatus.error)) := by
  unfold ensureRuntime at hnone ⊢
  cases rt0 with
  | none =>
    by_cases hen : mon.enabled = false
    · simp [hen]
    · simp only [hen, if_false] at hnone ⊢
      cases hp : nextRunFromCron parseCron mon.cron now with
      | ok t => rw [hp] at hnone; simp at hnone
      | error msg =>
        refine Or.inr ⟨⟨msg, nextRunFromCron_error hp⟩, Or.inl ?_⟩
        simp
  | some r0 =>
    by_cases hen : mon.enabled = false
    · simp only [hen, if_true] at hnone ⊢
      by_cases hpend : r0.status = RStatus.pending ∧ r0.nextRunAt ≠ none
      · rw [if_pos hpend] at hnone ⊢
        exact absurd hnone hpend.2
      · rw [if_neg hpend] at hnone ⊢
        by_cases hdis : r0.status = RStatus.disabled
        · rw [if_neg (by simp [hdis])] at hnone ⊢
          exact Or.inl hdis
        · rw [if_pos (by simp [hdis])] at hnone ⊢
          exact Or.inl rfl
    · simp only [hen, if_false] at hnone ⊢
      by_cases hdis : r0.status = RStatus.disabled
      · rw [if_pos hdis] at hnone ⊢
        by_cases hnx : r0.nextRunAt = none
        · rw [if_pos hnx] at hnone ⊢
          cases hp : nextRunFromCron parseCron mon.cron now with
          | ok t => rw [hp] at hnone; simp at hnone
          | error msg =>
            refine Or.inr ⟨⟨msg, nextRunFromCron_error hp⟩, Or.inl ?_⟩
            simp
        · rw [if_neg hnx] at hnone ⊢
          exact absurd hnone hnx
      · rw [if_neg hdis] at hnone ⊢
        by_cases hnx : r0.nextRunAt = none
        · rw [if_pos hnx] at hnone ⊢
          cases hp : nextRunFromCron parseCron mon.cron now with
          | error msg =>
            refine Or.inr ⟨⟨msg, nextRunFromCron_error hp⟩, Or.inr ?_⟩
            simp
          | ok t => rw [hp] at hnone; simp at hnone
        · rw [if_neg hnx] at hnone ⊢
          exact absurd hnone hnx



/-- C4 counterexample: with an enabled target whose cron expression does
not parse, two scheduler passes reach a persisted runtime whose status is
`error` — not `disabled` — with `next_run_at` null; the state survives
across ticks (it is `ensureRuntime`'s own fixed output), refuting "null
only while disabled or transiently within the same tick". -/
theorem C4_null_nextrun_counterexample :
    Reach cronAlwaysErr ⟨true, "not a cron"⟩
      (some (ensureRuntime cronAlwaysErr ⟨true, "not a cron"⟩
        (some (ensureRuntime cronAlwaysErr ⟨true, "not a cron"⟩ none 0)) 0)) ∧
    (ensureRuntime cronAlwaysErr ⟨true, "not a cron"⟩
      (some (ensureRuntime cronAlwaysErr ⟨true, "not a cron"⟩ none 0)) 0).status =
        RStatus.error ∧
    (ensureRuntime cronAlwaysErr ⟨true, "not a cron"⟩
      (some (ensureRuntime cronAlwaysErr ⟨true, "not a cron"⟩ none 0)) 0).status ≠
        RStatus.disabled ∧
    (ensureRuntime cronAlwaysErr ⟨true, "not a cron"⟩
      (some (ensureRuntime cronAlwaysErr ⟨true, "not a cron"⟩ none 0)) 0).nextRunAt =
        none :=
  ⟨Reach.ensure 0 (Reach.ensure 0 Reach.init), rfl, by decide, rfl⟩

/-- C4 (amended): in every runtime state reachable through the
scheduler's per-target transitions, `next_run_at` is null only while the
status is `disabled` — or, when the target's cron expression fails to
parse, while it is `pending` (just created or just re-enabled) or
`error` (the recorded parse failure, which persists until an operator
fixes the expression). -/
theorem C4_nextRunAt_invariant (parseCron : String → Except String (ℤ → ℤ))
    (mon : MonitorT) (s : Option RT) (h : Reach parseCron mon s) :
    ∀ r : RT, s = some r → r.nextRunAt = none →
      r.status = RStatus.disabled ∨
        ((∃ msg, parseCron mon.cron = Except.error msg) ∧
          (r.status = RStatus.pending ∨ r.status = RStatus.error)) := by
  induction h with
  | init =>
    intro r hr
    cases hr
  | ensure now hprev ih =>
    intro r hr hnone
    rw [Option.some.injEq] at hr
    subst hr
    exact ensureRuntime_none_inv parseCron mon _ now hnone
  | retryingStep hprev hne ih =>
    intro r hr hnone
    rw [Option.some.injEq] at hr
    subst hr
    exact absurd hnone hne
  | run now result retriesUsed disableAfterRun hprev ih =>
    intro r hr hnone
    rw [Option.some.injEq] at hr
    subst hr
    unfold applyRunUpdate at hnone ⊢
    cases disableAfterRun with
    | true =>
      cases hsucc : result.success <;>
        cases hmsg : result.errorMessage <;>
          simp [hsucc, hmsg]
    | false =>
      exfalso
      revert hnone
      cases hsucc : result.success <;>
        cases hmsg : result.errorMessage <;>
          simp [hsucc, hmsg]

/-- C4 witness for the amended invariant: a freshly created runtime of a
disabled target has null `next_run_at` and is indeed `disabled`. -/
theorem C4_nextRunAt_invariant_witness :
    (ensureRuntime cronAlwaysErr ⟨false, "* * * * *"⟩ none 0).status = RStatus.disabled ∨
      ((∃ msg, cronAlwaysErr "* * * * *" = Except.error msg) ∧
        ((ensureRuntime cronAlwaysErr ⟨false, "* * * * *"⟩ none 0).status = RStatus.pending ∨
          (ensureRuntime cronAlwaysErr ⟨false, "* * * * *"⟩ none 0).status = RStatus.error)) :=
  C4_nextRunAt_invariant cronAlwaysErr ⟨false, "* * * * *"⟩ _
    (Reach.ensure 0 Reach.init) _ rfl rfl

/-- C8: the Selector Evaluator rejects invalid top-level JSON with a hard
error; on valid JSON a non-empty path that resolves to nothing yields a
non-existing selection (`Exists = false`) and no error; and an empty
path selects the whole (trimmed) document with `Exists = true`. -/
theorem C8_selector_evaluator (payload path : String) :
    (parseJson payload = none →
      SelectJSON payload path = Except.error "invalid JSON payload") ∧
    (∀ doc : Json, parseJson payload = some doc → trimGo path ≠ "" →
      gjsonGet doc (splitOnDot (trimGo path).toList) = none →
      SelectJSON payload path =
        Except.ok { Exists := false, Typ := "none", Raw := "", Value := "" }) ∧
    (∀ doc : Json, parseJson payload = some doc → trimGo path = "" →
      SelectJSON payload path =
        Except.ok { Exists := true, Typ := gjsonTypeOf doc, Raw := trimGo payload
                    Value := normalizeValue doc (trimGo payload) }) := by
  refine ⟨?_, ?_, ?_⟩
  · intro hbad
    unfold SelectJSON
    rw [hbad]
  · intro doc hdoc hne hget
    unfold SelectJSON
    rw [hdoc]
    simp only [hne, if_false, hget]
  · intro doc hdoc hempty
    unfold SelectJSON
    rw [hdoc]
    simp only [hempty, if_true]

/-- C8 witness: concrete instances of all three contract clauses. -/
theorem C8_selector_evaluator_witness :
    SelectJSON "not json" "a" = Except.error "invalid JSON payload" ∧
    SelectJSON "[1,2]" "zz" =
      Except.ok { Exists := false, Typ := "none", Raw := "", Value := "" } ∧
    SelectJSON " [1,2] " "" =
      Except.ok { Exists := true, Typ := gjsonTypeOf (Json.arr [.num ⟨1, 1⟩, .num ⟨2, 1⟩])
                  Raw := trimGo " [1,2] "
                  Value := normalizeValue (Json.arr [.num ⟨1, 1⟩, .num ⟨2, 1⟩]) (trimGo " [1,2] ") } :=
  ⟨(C8_selector_evaluator "not json" "a").1 rfl,
   (C8_selector_evaluator "[1,2]" "zz").2.1 (Json.arr [.num ⟨1, 1⟩, .num ⟨2, 1⟩]) rfl
     (by decide) rfl,
   (C8_selector_evaluator " [1,2] " "").2.2 (Json.arr [.num ⟨1, 1⟩, .num ⟨2, 1⟩]) rfl rfl⟩

/-- The stored selection snapshot for `{"ask":91384.2}`. -/
def askPrev : selectionSnapshot :=
  { Exists := true, Typ := "json"
    Raw := "\x7b\"ask\":91384.2\x7d", Value := "\x7b\"ask\":91384.2\x7d" }

/-- The stored selection snapshot for `{"ask":91360.1}`. -/
def askCur : selectionSnapshot :=
  { Exists := true, Typ := "json"
    Raw := "\x7b\"ask\":91360.1\x7d", Value := "\x7b\"ask\":91360.1\x7d" }

set_option maxRecDepth 8000 in
/-- C1: diffing `{"ask":91384.2}` against `{"ask":91360.1}` yields an
`object` diff whose changed-path list is exactly `["ask"]` and whose
change entry for `ask` carries the delta "exactly `-24.1`": the raw
float64 difference rounded to one decimal place (the larger of the two
operands' inferred precisions), i.e. the binary64 value nearest
`-24.1`, whose shortest decimal form is `-24.1` — and not the raw
float64 difference, whose shortest decimal form is not `-24.1`. -/
theorem C1_object_diff_precision_delta :
    buildSelectionDiff (some askPrev) (some askCur) =
      some { Kind := "object", Changed := true
             Summary := "object changed (+0 -0 ~1)"
             Details := .objectD [] [] ["ask"]
               [("ask", { old := Json.num (toF64 ⟨913842, 10⟩)
                          new := Json.num (toF64 ⟨913601, 10⟩)
                          delta := some (toF64 ⟨-241, 10⟩) })] } ∧
    formatShortest (toF64 ⟨-241, 10⟩) = "-24.1" ∧
    decimalPlacesFromNumericString "91384.2" = 1 ∧
    decimalPlacesFromNumericString "91360.1" = 1 ∧
    toF64 ⟨-241, 10⟩ ≠ fsub (toF64 ⟨913601, 10⟩) (toF64 ⟨913842, 10⟩) ∧
    formatShortest (fsub (toF64 ⟨913601, 10⟩) (toF64 ⟨913842, 10⟩)) ≠ "-24.1" :=
  ⟨rfl, by decide, by decide, by decide, by decide, by decide⟩

/-- C2 counterexample: the identity permutation.  `[1]` is a permutation
of `[1]` (equal multisets of canonical encodings), yet the diff kind is
`array` with `changed = false`, not `arrayReorder` with
`changed = true` as the claim states for every permutation. -/
theorem C2_identity_permutation_counterexample :
    List.Perm [Json.num ⟨1, 1⟩] [Json.num ⟨1, 1⟩] ∧
    allPrimitives [Json.num ⟨1, 1⟩] = true ∧
    (arrayCountMap [Json.num ⟨1, 1⟩]).1 = (arrayCountMap [Json.num ⟨1, 1⟩]).1 ∧
    (buildPrimitiveArrayDiff [Json.num ⟨1, 1⟩] [Json.num ⟨1, 1⟩]).map selectionDiff.Kind =
      some "array" ∧
    (buildPrimitiveArrayDiff [Json.num ⟨1, 1⟩] [Json.num ⟨1, 1⟩]).map selectionDiff.Changed =
      some false :=
  ⟨List.Perm.refl _, rfl, rfl, rfl, rfl⟩

/-- C2 (amended): for primitive arrays whose canonical multisets are
equal but whose ordered canonical encodings differ — a permutation that
actually changes the order — the diff is `arrayReorder` with
`changed = true` and empty added/removed multisets.  (The identity
permutation instead yields kind `array` with `changed = false`.) -/
theorem C2_arrayReorder_on_true_reorder (previousArray currentArray : List Json)
    (hp : allPrimitives previousArray = true) (hc : allPrimitives currentArray = true)
    (hperm : (arrayCountMap previousArray).1 = (arrayCountMap currentArray).1)
    (hord : (arrayCountMap previousArray).2 ≠ (arrayCountMap currentArray).2) :
    buildPrimitiveArrayDiff previousArray currentArray =
      some { Kind := "arrayReorder", Changed := true
             Summary := "array reordered (" ++ toString currentArray.length ++ " items)"
             Details := .arrayPrimD previousArray.length currentArray.length 0 0 true } := by
  unfold buildPrimitiveArrayDiff
  simp only [hp, hc, Bool.not_true, Bool.false_eq_true, or_self, if_false]
  rw [hperm]
  simp [mapCountDiff, hord]

/-- C2 witness: `[1,2]` against `[2,1]`. -/
theorem C2_arrayReorder_witness :
    buildPrimitiveArrayDiff [Json.num ⟨1, 1⟩, Json.num ⟨2, 1⟩]
        [Json.num ⟨2, 1⟩, Json.num ⟨1, 1⟩] =
      some { Kind := "arrayReorder", Changed := true
             Summary := "array reordered (" ++
               toString ([Json.num ⟨2, 1⟩, Json.num ⟨1, 1⟩] : List Json).length ++ " items)"
             Details := .arrayPrimD 2 2 0 0 true } :=
  C2_arrayReorder_on_true_reorder _ _ rfl rfl (by decide) (by decide)

end Goanna

namespace Goanna

/-- Loop characterisation of `hasUniqueKeyAux`. -/
theorem hasUniqueKeyAux_iff (key : String) :
    ∀ (values : List (List (String × Json))) (seen : List String),
      hasUniqueKeyAux key values seen = true ↔
        ((∀ item ∈ values, ∃ v, lookupField item key = some v ∧ scalarKey v = true) ∧
         (values.map fun item => (lookupField item key).map stableJSON).Nodup ∧
         (∀ item ∈ values, ∀ v, lookupField item key = some v → stableJSON v ∉ seen)) := by
  intro values
  induction values with
  | nil =>
    intro seen
    simp [hasUniqueKeyAux]
  | cons item rest ih =>
    intro seen
    unfold hasUniqueKeyAux
    cases hlk : lookupField item key with
    | none =>
      simp only [Bool.false_eq_true, false_iff]
      intro h
      obtain ⟨v, hv, _⟩ := h.1 item (List.mem_cons_self item rest)
      rw [hlk] at hv
      cases hv
    | some raw =>
      by_cases hsc : scalarKey raw = true
      · simp only [hsc, Bool.not_true, Bool.false_eq_true, if_false]
        by_cases hseen : seen.contains (stableJSON raw) = true
        · rw [if_pos hseen]
          have hseenMem : stableJSON raw ∈ seen := List.elem_iff.mp hseen
          constructor
          · intro h
            cases h
          · intro h
            exact absurd hseenMem (h.2.2 item (List.mem_cons_self item rest) raw hlk)
        · have hseen' : stableJSON raw ∉ seen := fun hmem =>
            hseen (List.elem_iff.mpr hmem)
          rw [if_neg hseen]
          rw [ih (stableJSON raw :: seen)]
          constructor
          · rintro ⟨hall, hnodup, hnotin⟩
            refine ⟨?_, ?_, ?_⟩
            · intro it hit
              rcases List.mem_cons.mp hit with heq | hmem
              · subst heq
                exact ⟨raw, hlk, hsc⟩
              · exact hall it hmem
            · rw [List.map_cons, List.nodup_cons]
              refine ⟨?_, hnodup⟩
              intro hmem
              rw [List.mem_map] at hmem
              obtain ⟨it, hit, heq⟩ := hmem
              rw [hlk] at heq
              cases hv : lookupField it key with
              | none => rw [hv] at heq; simp [Option.map] at heq
              | some v =>
                rw [hv] at heq
                simp only [Option.map] at heq
                have henc : stableJSON v = stableJSON raw := by injection heq
                have := hnotin it hit v hv
                rw [henc] at this
                exact this (List.mem_cons_self _ _)
            · intro it hit v hv
              rcases List.mem_cons.mp hit with heq | hmem
              · subst heq
                rw [hlk] at hv
                injection hv with hv
                subst hv
                exact hseen'
              · intro hmem2
                exact hnotin it hmem v hv (List.mem_cons_of_mem _ hmem2)
          · rintro ⟨hall, hnodup, hnotin⟩
            rw [List.map_cons, List.nodup_cons] at hnodup
            refine ⟨?_, hnodup.2, ?_⟩
            · intro it hit
              exact hall it (List.mem_cons_of_mem _ hit)
            · intro it hit v hv hmem
              rcases List.mem_cons.mp hmem with heq | hmem2
              · apply hnodup.1
                rw [List.mem_map]
                refine ⟨it, hit, ?_⟩
                rw [hv, hlk]
                simp only [Option.map]
                rw [heq]
              · exact hnotin it (List.mem_cons_of_mem _ hit) v hv hmem2
      · have hsc' : scalarKey raw = false := by
          cases h : scalarKey raw
          · rfl
          · exact absurd h hsc
        simp only [hsc', Bool.not_false, if_true, Bool.false_eq_true, false_iff]
        intro h
        obtain ⟨v, hv, hvs⟩ := h.1 item (List.mem_cons_self item rest)
        rw [hlk] at hv
        injection hv with hv
        subst hv
        rw [hvs] at hsc'
        cases hsc'


/-- `hasUniqueKey` characterisation: acceptance means every element
carries the field with a scalar non-null value and the encoded values
are pairwise distinct. -/
theorem hasUniqueKey_iff (key : String) (values : List (List (String × Json))) :
    hasUniqueKey key values = true ↔
      (∀ item ∈ values, ∃ v, lookupField item key = some v ∧ scalarKey v = true) ∧
      (values.map fun item => (lookupField item key).map stableJSON).Nodup := by
  unfold hasUniqueKey
  rw [hasUniqueKeyAux_iff]
  simp

/-- Rejection of a candidate in every list element of `detectKeyAux`
propagates to the final choice. -/
theorem detectKeyAux_ne (prev cur : List (List (String × Json))) (c : String)
    (hc : c ≠ "") (hrej : hasUniqueKey c prev = false ∨ hasUniqueKey c cur = false) :
    ∀ cands : List String, detectKeyAux prev cur cands ≠ c := by
  intro cands
  induction cands with
  | nil =>
    unfold detectKeyAux
    exact fun h => hc h.symm
  | cons head tail ih =>
    unfold detectKeyAux
    by_cases hacc : (hasUniqueKey head prev && hasUniqueKey head cur) = true
    · rw [if_pos hacc]
      intro heq
      subst heq
      rw [Bool.and_eq_true] at hacc
      rcases hrej with h | h
      · rw [hacc.1] at h; cases h
      · rw [hacc.2] at h; cases h
    · rw [if_neg hacc]
      exact ih

/-- C10: a candidate identity field is rejected for the whole comparison
exactly when, in the examined array, some element lacks the field or
carries a null/object/array value, or two elements share the same
encoded value; rejection of a candidate in either array means
`detectObjectArrayKey` never picks it (the next candidate, or no key at
all, wins), and with no detected key the keyed object-array diff is
skipped entirely, falling back to whole-value equality. -/
theorem C10_identity_key_rejection (key : String)
    (values prev cur : List (List (String × Json))) (pa ca : List Json) :
    (hasUniqueKey key values = false ↔
      (∃ item ∈ values, lookupField item key = none ∨
        ∃ v, lookupField item key = some v ∧ scalarKey v = false) ∨
      ¬(values.map fun item => (lookupField item key).map stableJSON).Nodup) ∧
    scalarKey Json.null = false ∧
    (∀ fields, scalarKey (Json.obj fields) = false) ∧
    (∀ elems, scalarKey (Json.arr elems) = false) ∧
    (∀ c : String, c ≠ "" →
      hasUniqueKey c prev = false ∨ hasUniqueKey c cur = false →
      detectObjectArrayKey prev cur ≠ c) ∧
    (asObjectSlice pa = some prev → asObjectSlice ca = some cur →
      detectObjectArrayKey prev cur = "" →
      buildKeyedObjectArrayDiff pa ca = none) := by
  refine ⟨?_, rfl, fun _ => rfl, fun _ => rfl, ?_, ?_⟩
  · have hchar := hasUniqueKey_iff key values
    constructor
    · intro hfalse
      by_contra hcon
      push_neg at hcon
      have hgood : hasUniqueKey key values = true := by
        rw [hchar]
        refine ⟨?_, hcon.2⟩
        intro item hitem
        have h1 := hcon.1 item hitem
        cases hlk : lookupField item key with
        | none => exact absurd hlk h1.1
        | some v =>
          refine ⟨v, rfl, ?_⟩
          cases hs : scalarKey v with
          | false => exact absurd hs (h1.2 v hlk)
          | true => rfl
      rw [hgood] at hfalse
      cases hfalse
    · intro h
      cases hfv : hasUniqueKey key values with
      | false => rfl
      | true =>
        exfalso
        rw [hchar] at hfv
        rcases h with ⟨item, hitem, hbad⟩ | hnd
        · obtain ⟨v, hv, hvs⟩ := hfv.1 item hitem
          rcases hbad with hnone | ⟨w, hw, hws⟩
          · rw [hnone] at hv; cases hv
          · rw [hw] at hv
            injection hv with hv
            subst hv
            rw [hvs] at hws
            cases hws
        · exact hnd hfv.2
  · intro c hc hrej
    exact detectKeyAux_ne prev cur c hc hrej _
  · intro hpa hca hdet
    unfold buildKeyedObjectArrayDiff
    rw [hpa, hca]
    simp [hdet]

/-- C10 witness: a null `id` value disqualifies the candidate, no other
candidate exists, and the keyed diff is skipped. -/
theorem C10_identity_key_rejection_witness :
    buildKeyedObjectArrayDiff [Json.obj [("id", Json.null)]]
      [Json.obj [("id", Json.null)]] = none :=
  (C10_identity_key_rejection "id" [] [[("id", Json.null)]] [[("id", Json.null)]]
    [Json.obj [("id", Json.null)]] [Json.obj [("id", Json.null)]]).2.2.2.2.2
    rfl rfl rfl


/-- `reflect.DeepEqual` is reflexive. -/
theorem Json.beq_refl (a : Json) : Json.beq a a = true := by
  simp [Json.beq]

/-- Subtracting a float64 value from itself gives exact zero. -/
theorem fsub_self (x : Frac) : fsub x x = ⟨0, 1⟩ := by
  unfold fsub Frac.sub toF64
  simp

/-- Rounding zero to any number of decimal places gives zero. -/
theorem roundToDecimalPlaces_zero (p : ℤ) : roundToDecimalPlaces ⟨0, 1⟩ p = ⟨0, 1⟩ := by
  unfold roundToDecimalPlaces
  by_cases hp : p < 0
  · simp [hp]
  · have hmul : ∀ f : Frac, fmul ⟨0, 1⟩ f = ⟨0, 1⟩ := by
      intro f
      unfold fmul Frac.mul toF64
      simp
    have hround : mathRound ⟨0, 1⟩ = ⟨0, 1⟩ := by decide
    have hdiv : ∀ f : Frac, fdiv ⟨0, 1⟩ f = ⟨0, 1⟩ := by
      intro f
      unfold fdiv Frac.div toF64
      by_cases h0 : f.num = 0
      · simp [h0]
      · by_cases hpos : 0 < f.num <;> simp [h0, hpos]
    simp [hp, hmul, hround, hdiv]

/-- A number diffed against itself is unchanged. -/
theorem buildNumberDiff_self (S : selectionSnapshot) :
    (buildNumberDiff S S).Changed = false := by
  unfold buildNumberDiff
  cases h : parseFloatQ (trimGo S.Value) with
  | none => simp [buildTextDiff]
  | some x =>
    simp only [fsub_self, roundToDecimalPlaces_zero]
    simp [Frac.beqv]

/-- Text diffed against itself is unchanged. -/
theorem buildTextDiff_self (S : selectionSnapshot) :
    (buildTextDiff S S).Changed = false := by
  simp [buildTextDiff]

/-- A boolean diffed against itself is unchanged. -/
theorem buildBooleanDiff_self (S : selectionSnapshot) :
    (buildBooleanDiff S S).Changed = false := by
  simp [buildBooleanDiff]

/-- A date-time diffed against itself is unchanged. -/
theorem buildDateTimeDiff_self (S : selectionSnapshot) (d : selectionDiff)
    (h : buildDateTimeDiff S S = some d) : d.Changed = false := by
  unfold buildDateTimeDiff at h
  cases hp : parseDateTime S.Value with
  | none => rw [hp] at h; cases h
  | some t =>
    rw [hp] at h
    simp only [Option.some.injEq] at h
    subst h
    simp

/-- Left identity of accumulator concatenation. -/
theorem ObjAcc.empty_app (b : ObjAcc) : ObjAcc.app ⟨[], [], [], []⟩ b = b := by
  cases b
  simp [ObjAcc.app]

/-- Walking an object against itself collects nothing, at every fuel. -/
theorem collectObjectDiff_self :
    ∀ (fuel : ℕ) (pre : String) (o : List (String × Json)),
      collectObjectDiff fuel pre o o = ⟨[], [], [], []⟩ := by
  intro fuel
  induction fuel with
  | zero => intro pre o; rfl
  | succ fuel ih =>
    intro pre o
    unfold collectObjectDiff
    generalize dedupSorted (sortStrings (o.map Prod.fst ++ o.map Prod.fst)) = keys
    induction keys with
    | nil => rfl
    | cons key rest ihk =>
      rw [List.foldr_cons, ihk]
      cases h : alookup o key with
      | none => rfl
      | some v =>
        cases v with
        | obj fields =>
          show ObjAcc.app (collectObjectDiff fuel _ fields fields) _ = _
          rw [ih, ObjAcc.empty_app]
        | null => simp [Json.beq_refl, ObjAcc.empty_app]
        | bool b => simp [Json.beq_refl, ObjAcc.empty_app]
        | num q => simp [Json.beq_refl, ObjAcc.empty_app]
        | str s => simp [Json.beq_refl, ObjAcc.empty_app]
        | arr elems => simp [Json.beq_refl, ObjAcc.empty_app]

/-- An object diffed against itself is unchanged. -/
theorem buildObjectDiff_self (S : selectionSnapshot) :
    (buildObjectDiff S S).Changed = false := by
  unfold buildObjectDiff
  cases hp : parseJson S.Value with
  | none => simp [buildTextDiff]
  | some v =>
    cases v with
    | obj fields => simp [collectObjectDiff_self, sortStrings]
    | null => simp [buildTextDiff]
    | bool b => simp [buildTextDiff]
    | num q => simp [buildTextDiff]
    | str s => simp [buildTextDiff]
    | arr elems => simp [buildTextDiff]

/-- Looking up a later segment when the key is present in the front. -/
theorem alookup_append_left {α : Type} (a b : List (String × α)) (k : String)
    (h : (alookup a k).isSome = true) : alookup (a ++ b) k = alookup a k := by
  induction a with
  | nil => simp [alookup] at h
  | cons kv rest ih =>
    by_cases hk : kv.1 = k
    · cases kv
      simp_all [alookup]
    · cases kv
      simp only [alookup] at h ⊢
      simp only [hk, if_false] at h ⊢
      exact ih h

/-- Looking up past an absent front segment. -/
theorem alookup_append_right {α : Type} (a b : List (String × α)) (k : String)
    (h : alookup a k = none) : alookup (a ++ b) k = alookup b k := by
  induction a with
  | nil => simp [alookup]
  | cons kv rest ih =>
    obtain ⟨k', v'⟩ := kv
    simp only [alookup] at h ⊢
    by_cases hk : k' = k
    · simp [hk] at h
    · simp only [hk, if_false] at h ⊢
      exact ih h

/-- The identity-key map built by `mapObjectsByKeyAux` resolves every one
of its own entries to that entry (its keys are duplicate-free by
construction). -/
theorem mapObjectsByKeyAux_lookup (key : String) :
    ∀ (items : List (List (String × Json)))
      (acc m : List (String × List (String × Json))),
      (∀ kv ∈ acc, alookup acc kv.1 = some kv.2) →
      mapObjectsByKeyAux key items acc = some m →
      ∀ kv ∈ m, alookup m kv.1 = some kv.2 := by
  intro items
  induction items with
  | nil =>
    intro acc m hacc hm
    unfold mapObjectsByKeyAux at hm
    rw [Option.some.injEq] at hm
    subst hm
    exact hacc
  | cons item rest ih =>
    intro acc m hacc hm
    unfold mapObjectsByKeyAux at hm
    cases hlk : lookupField item key with
    | none => rw [hlk] at hm; cases hm
    | some keyValue =>
      rw [hlk] at hm
      dsimp only at hm
      by_cases hdup : (alookup acc (stableJSON keyValue)).isSome = true
      · rw [if_pos hdup] at hm; cases hm
      · rw [if_neg hdup] at hm
        have hnone : alookup acc (stableJSON keyValue) = none := by
          cases hx : alookup acc (stableJSON keyValue)
          · rfl
          · rw [hx] at hdup; simp at hdup
        refine ih (acc ++ [(stableJSON keyValue, item)]) m ?_ hm
        intro kv hkv
        rw [List.mem_append] at hkv
        rcases hkv with hkv | hkv
        · have := hacc kv hkv
          rw [alookup_append_left _ _ _ (by rw [this]; rfl)]
          exact this
        · rw [List.mem_singleton] at hkv
          subst hkv
          rw [alookup_append_right _ _ _ hnone]
          simp [alookup]

/-- A keyed object-array diff of an array against itself is unchanged. -/
theorem buildKeyedObjectArrayDiff_self (a : List Json) (d : selectionDiff)
    (h : buildKeyedObjectArrayDiff a a = some d) : d.Changed = false := by
  unfold buildKeyedObjectArrayDiff at h
  cases hobj : asObjectSlice a with
  | none => rw [hobj] at h; cases h
  | some objs =>
    rw [hobj] at h
    dsimp only at h
    by_cases hkey : detectObjectArrayKey objs objs = ""
    · rw [if_pos hkey] at h; cases h
    · rw [if_neg hkey] at h
      cases hmap : mapObjectsByKey objs (detectObjectArrayKey objs objs) with
      | none => rw [hmap] at h; cases h
      | some m =>
        rw [hmap] at h
        dsimp only at h
        have hlk : ∀ kv ∈ m, alookup m kv.1 = some kv.2 := by
          refine mapObjectsByKeyAux_lookup _ objs [] m ?_ hmap
          intro kv hkv
          cases hkv
        have hfilter1 : m.filter (fun kv => (alookup m kv.1).isNone) = [] := by
          rw [List.filter_eq_nil_iff]
          intro kv hkv
          rw [hlk kv hkv]
          simp
        have hfilter2 : m.filter
            (fun kv =>
              match alookup m kv.1 with
              | some currentItem => !Json.beq (.obj kv.2) (.obj currentItem)
              | none => false) = [] := by
          rw [List.filter_eq_nil_iff]
          intro kv hkv
          rw [hlk kv hkv]
          simp [Json.beq_refl]
        rw [hfilter1, hfilter2] at h
        simp only [List.map_nil] at h
        rw [Option.some.injEq] at h
        subst h
        simp [sortStrings]

/-- A primitive-array diff of an array against itself is unchanged. -/
theorem buildPrimitiveArrayDiff_self (a : List Json) (d : selectionDiff)
    (h : buildPrimitiveArrayDiff a a = some d) : d.Changed = false := by
  unfold buildPrimitiveArrayDiff at h
  by_cases hp : (!allPrimitives a) = true ∨ (!allPrimitives a) = true
  · rw [if_pos hp] at h; cases h
  · rw [if_neg hp] at h
    simp only [mapCountDiff, tsub_self] at h
    rw [Option.some.injEq] at h
    subst h
    simp

/-- An array snapshot diffed against itself is unchanged. -/
theorem buildArrayDiff_self (S : selectionSnapshot) :
    (buildArrayDiff S S).Changed = false := by
  unfold buildArrayDiff parseJSONArrayPair
  cases hp : (parseJson S.Value).bind jsonToArray with
  | none => simp [buildTextDiff]
  | some a =>
    dsimp only
    cases hprim : buildPrimitiveArrayDiff a a with
    | some dp =>
      dsimp only
      exact buildPrimitiveArrayDiff_self a dp hprim
    | none =>
      dsimp only
      cases hkey : buildKeyedObjectArrayDiff a a with
      | some dk =>
        dsimp only
        exact buildKeyedObjectArrayDiff_self a dk hkey
      | none =>
        dsimp only
        simp [Json.beqList]

/-- C3: for every existing selection snapshot `S` and every value kind,
`buildSelectionDiff(null, S)` is an `initial` diff with
`changed = false`, and `buildSelectionDiff(S, S)` — the same snapshot on
both sides — has `changed = false`. -/
theorem C3_initial_and_self_diff (S : selectionSnapshot) (h : S.Exists = true) :
    (∃ d, buildSelectionDiff none (some S) = some d ∧
      d.Kind = "initial" ∧ d.Changed = false) ∧
    (∃ d, buildSelectionDiff (some S) (some S) = some d ∧ d.Changed = false) := by
  constructor
  · unfold buildSelectionDiff
    dsimp only
    rw [h]
    exact ⟨_, rfl, rfl, rfl⟩
  · unfold buildSelectionDiff
    dsimp only
    rw [h]
    rw [if_neg (show ¬(true = false) by simp)]
    rw [if_neg (show ¬(selectionKind (some S) ≠ selectionKind (some S)) from fun hne => hne rfl)]
    by_cases hk1 : selectionKind (some S) = "number"
    · rw [if_pos hk1]
      exact ⟨_, rfl, buildNumberDiff_self S⟩
    · rw [if_neg hk1]
      by_cases hk2 : selectionKind (some S) = "boolean"
      · rw [if_pos hk2]
        exact ⟨_, rfl, buildBooleanDiff_self S⟩
      · rw [if_neg hk2]
        by_cases hk3 : selectionKind (some S) = "null"
        · rw [if_pos hk3]
          exact ⟨_, rfl, by simp⟩
        · rw [if_neg hk3]
          by_cases hk4 : selectionKind (some S) = "text"
          · rw [if_pos hk4]
            cases hdt : buildDateTimeDiff S S with
            | some dd => exact ⟨dd, rfl, buildDateTimeDiff_self S dd hdt⟩
            | none => exact ⟨_, rfl, buildTextDiff_self S⟩
          · rw [if_neg hk4]
            by_cases hk5 : selectionKind (some S) = "array"
            · rw [if_pos hk5]
              exact ⟨_, rfl, buildArrayDiff_self S⟩
            · rw [if_neg hk5]
              by_cases hk6 : selectionKind (some S) = "object"
              · rw [if_pos hk6]
                exact ⟨_, rfl, buildObjectDiff_self S⟩
              · rw [if_neg hk6]
                exact ⟨_, rfl, buildTextDiff_self S⟩

/-- C3 witness: the concrete snapshot `{"ask":91360.1}` seeds an
`initial` diff from null and an unchanged diff against itself. -/
theorem C3_initial_and_self_diff_witness :
    askCur.Exists = true ∧
    (∃ d, buildSelectionDiff none (some askCur) = some d ∧
      d.Kind = "initial" ∧ d.Changed = false) ∧
    (∃ d, buildSelectionDiff (some askCur) (some askCur) = some d ∧ d.Changed = false) :=
  ⟨rfl, (C3_initial_and_self_diff askCur rfl).1, (C3_initial_and_self_diff askCur rfl).2⟩

end Goanna
